import Mathlib

/-!
Verification development for the `coq_serapy` driver
(`src/coq_serapy/__init__.py`).  The Python source is shallowly embedded:
pure string processing becomes functions on `List Char` / `String`, the
driver's mutable mirror state becomes an explicit `Mirror` record threaded
through the operations, prover responses become explicit oracle inputs, and
code paths that raise Python exceptions (failed `assert`s, `IndexError`,
`ValueError`, protocol errors) return `none` / error values.
Character classes model the ASCII behaviour of Python's `\s`, `\d`, `\w`.
-/

namespace CoqSerapy

/-- Python `\s` on ASCII: space, tab, newline, carriage return, vertical tab,
form feed. -/
def pyIsSpace (c : Char) : Bool :=
  c = ' ' || c = '\t' || c = '\n' || c = '\r' || c = '\x0b' || c = '\x0c'

/-- Python `\d` on ASCII. -/
def pyIsDigit (c : Char) : Bool :=
  '0' ≤ c && c ≤ '9'

/-- Python `\w` on ASCII: letters, digits and underscore. -/
def pyIsWord (c : Char) : Bool :=
  ('a' ≤ c && c ≤ 'z') || ('A' ≤ c && c ≤ 'Z') || pyIsDigit c || c = '_'

/-- The character class `[\w']` used by several of the driver's regexes. -/
def pyIsWordApos (c : Char) : Bool :=
  pyIsWord c || c = '\''

/-- The character class `[\w'\.]` used by the lemma-name regex. -/
def pyIsWordAposDot (c : Char) : Bool :=
  pyIsWordApos c || c = '.'

/-- Does `s` start with the literal pattern `p`? -/
def startsWithL : List Char → List Char → Bool
  | _, [] => true
  | [], _ :: _ => false
  | c :: cs, p :: ps => c = p && startsWithL cs ps

/-- Python's `needle in haystack` on strings: substring occurrence. -/
def hasSubstr (s : List Char) (pat : List Char) : Bool :=
  match s with
  | [] => startsWithL [] pat
  | _ :: cs => startsWithL s pat || hasSubstr cs pat

/-- Python `str.count`, fuelled: every step consumes at least one
character, so any fuel at least the scanned length is exact (with the
length invariant, exhausted fuel only ever sees the empty remainder, which
counts 0 either way). -/
def countSubF (pat : List Char) : Nat → List Char → Nat
  | 0, _ => 0
  | fuel + 1, s =>
    match pat, s with
    | [], _ => 0
    | _ :: _, [] => 0
    | _ :: _, c :: cs =>
      if startsWithL (c :: cs) pat then
        1 + countSubF pat fuel ((c :: cs).drop pat.length)
      else
        countSubF pat fuel cs

/-- Python `str.count`: non-overlapping occurrences, scanned left to
right. -/
def countSub (s : List Char) (pat : List Char) : Nat :=
  countSubF pat s.length s

/-- Python `str.replace`, fuelled like `countSubF` (exhausted fuel only
ever sees the empty remainder, returned unchanged either way). -/
def pyReplaceF (pat rep : List Char) : Nat → List Char → List Char
  | 0, s => s
  | fuel + 1, s =>
    match pat, s with
    | [], _ => s
    | _ :: _, [] => []
    | _ :: _, c :: cs =>
      if startsWithL (c :: cs) pat then
        rep ++ pyReplaceF pat rep fuel ((c :: cs).drop pat.length)
      else
        c :: pyReplaceF pat rep fuel cs

/-- Python `str.replace`: replace every non-overlapping occurrence of
`pat` (scanning left to right) by `rep`. -/
def pyReplace (s : List Char) (pat rep : List Char) : List Char :=
  pyReplaceF pat rep s.length s

/-- Python `str.strip()` (whitespace on both ends). -/
def pyStrip (s : List Char) : List Char :=
  ((s.dropWhile pyIsSpace).reverse.dropWhile pyIsSpace).reverse

/-- Consume the literal `lit` from the front of `s`, returning the rest. -/
def litM (lit : List Char) (s : List Char) : Option (List Char) :=
  match lit with
  | [] => some s
  | l :: ls =>
    match s with
    | [] => none
    | c :: cs => if c = l then litM ls cs else none

/-- Consume one or more whitespace characters (`\s+`). -/
def wsPlus (s : List Char) : Option (List Char) :=
  match s with
  | [] => none
  | c :: cs => if pyIsSpace c then some (cs.dropWhile pyIsSpace) else none

/-- Consume a literal keyword followed by `\s+`; fails (as the regex
backtracks) when either part is absent. -/
def kwWs (lit : String) (s : List Char) : Option (List Char) := do
  let r ← litM lit.data s
  wsPlus r

/-- Optionally consume `kwWs lit`; on failure the optional regex group is
skipped and the input is unchanged. -/
def optKwWs (lit : String) (s : List Char) : List Char :=
  match kwWs lit s with
  | some r => r
  | none => s

/-- Python `string[i]` for the in-range indices used by `kill_comments`. -/
def charAt (s : List Char) (i : Nat) : Char :=
  s.getD i ' '

/-- Python `string[i-1]` as used by `kill_comments`: at `i = 0` Python's
negative indexing makes this the *last* character of the string. -/
def prevCharAt (s : List Char) (i : Nat) : Char :=
  if i = 0 then charAt s (s.length - 1) else charAt s (i - 1)

/-- Loop body of `kill_comments` (src/coq_serapy/__init__.py lines
1926-1945).  The Python `for i in range(len(string))` is recursion on the
number `rem` of remaining indices, with `i = length - rem`.  The slice tests
`string[i:i+2] == '(*'` and `string[i-1:i+1] == '*)'` are expanded into
their character conditions (a slice shorter than two characters never
equals a two-character string, and at `i = 0` the slice `[-1:1]` is empty
or a single character). -/
def killCommentsGo (s : List Char) : Nat → Nat → Nat → Bool → List Char → List Char
  | 0, _, _, _, acc => acc
  | rem + 1, i, depth, inQuote, acc =>
    if inQuote then
      let acc' := if depth = 0 then acc ++ [charAt s i] else acc
      let inq' := ¬(charAt s i = '"' ∧ prevCharAt s i ≠ '\\')
      killCommentsGo s rem (i + 1) depth (decide inq') acc'
    else
      let depth1 :=
        if i + 1 < s.length ∧ charAt s i = '(' ∧ charAt s (i + 1) = '*'
        then depth + 1 else depth
      let acc' := if depth1 = 0 then acc ++ [charAt s i] else acc
      let depth2 :=
        if 1 ≤ i ∧ charAt s (i - 1) = '*' ∧ charAt s i = ')' ∧ 0 < depth1
        then depth1 - 1 else depth1
      let inq' := charAt s i = '"' ∧ prevCharAt s i ≠ '\\'
      killCommentsGo s rem (i + 1) depth2 (decide inq') acc'

/-- `kill_comments` (lines 1926-1945): single pass tracking comment `depth`
and `in_quote`, keeping exactly the characters seen at depth 0. -/
def kill_comments (s : String) : String :=
  String.mk (killCommentsGo s.data s.data.length 0 0 false [])

/-- Modelled from the spec: `contexts.AbstractSyntaxTree` (contexts.py is
not under src/).  Spec section 3: an AST "carries both the raw S-expression
serialization and the pretty-printed string form". -/
structure AbstractSyntaxTree where
  ast : String
  str : String
deriving DecidableEq, Repr

/-- Modelled from the spec: `contexts.Obligation` (contexts.py is not under
src/): `(hypotheses, goal)`. -/
structure Obligation where
  hypotheses : List AbstractSyntaxTree
  goal : AbstractSyntaxTree
deriving DecidableEq, Repr

/-- Modelled from the spec: `contexts.ProofContext` (contexts.py is not
under src/): fg/bg/shelved/given-up obligation sequences, with the field
names and the four-argument positional constructor used throughout
src/coq_serapy/__init__.py. -/
structure ProofContext where
  fg_goals : List Obligation
  bg_goals : List Obligation
  shelved_goals : List Obligation
  given_up_goals : List Obligation
deriving DecidableEq, Repr

/-- The `is_goal_open` test of `run_stmt` (line 658):
`re.match(r"\s*(?:\d+\s*:)?\s*[{]\s*", stm)`.  The optional selector group
needs at least one digit, optional whitespace and a colon; since a colon is
not a digit the greedy `\d+` never backtracks. -/
def isGoalOpen (stm : String) : Bool :=
  let s := stm.data.dropWhile pyIsSpace
  let s2 :=
    match s.takeWhile pyIsDigit with
    | [] => s
    | ds =>
      match (s.drop ds.length).dropWhile pyIsSpace with
      | ':' :: r => r
      | _ => s
  match s2.dropWhile pyIsSpace with
  | '\x7b' :: _ => true
  | _ => false

/-- The `is_goal_close` test of `run_stmt` (line 659):
`re.match(r"\s*[}]\s*", stm)`. -/
def isGoalClose (stm : String) : Bool :=
  match stm.data.dropWhile pyIsSpace with
  | '\x7d' :: _ => true
  | _ => false

/-- The `is_unshelve` test of `run_stmt` (line 660):
`re.match(r"\s*Unshelve\s*\.\s*", stm)`. -/
def isUnshelve (stm : String) : Bool :=
  match litM "Unshelve".data (stm.data.dropWhile pyIsSpace) with
  | some r =>
    match r.dropWhile pyIsSpace with
    | '.' :: _ => true
    | _ => false
  | none => false

/-- Union of `lemma_starting_patterns` (lines 1803-1834) matched at the
start of `s`, in source order.  The `(?<!Declare\s)` lookbehind guarding
`Instance` is vacuous here: under `re.match` the only text that can precede
the alternation is the optional `Local`/`Global` prefix, which never ends
in `Declare `. -/
def starterMatches (s : List Char) : Bool :=
  (litM "Lemma".data (optKwWs "Polymorphic" (optKwWs "Program" s))).isSome
  || (litM "Coercion".data s).isSome
  || (litM "Theorem".data (optKwWs "Polymorphic" s)).isSome
  || (litM "Remark".data s).isSome
  || (litM "Proposition".data s).isSome
  || (litM "Definition".data (optKwWs "Polymorphic" s)).isSome
  || (match kwWs "Program" s with
      | some r => (litM "Definition".data r).isSome
      | none => false)
  || (match kwWs "Program" s with
      | some r => (litM "Instance".data r).isSome
      | none => false)
  || (litM "Example".data s).isSome
  || (litM "Fixpoint".data s).isSome
  || (litM "Corollary".data s).isSome
  || (litM "Let".data s).isSome
  || (litM "Instance".data (optKwWs "Polymorphic" s)).isSome
  || (litM "Function".data s).isSome
  || (litM "Property".data s).isSome
  || (litM "Fact".data s).isSome
  || (litM "Equations".data s).isSome
  || (litM "Derive".data s).isSome
  || (litM "Goal".data s).isSome
  || (litM "Add Morphism".data s).isSome
  || (litM "Next Obligation".data s).isSome
  || (match kwWs "Obligation" s with
      | some r => decide (r.takeWhile pyIsDigit ≠ [])
      | none => false)
  || (litM "Add Parametric Morphism".data s).isSome
  || (litM "Functional".data s).isSome
  || (litM "Inductive".data s).isSome

/-- The optional `(?:(?:Local|Global)\s+)?` prefix.  Regex backtracking is
not needed: a command starting with `Local `/`Global ` cannot also match
one of the starter keywords at position 0. -/
def optStarterPre (s : List Char) : List Char :=
  match kwWs "Local" s with
  | some r => r
  | none => optKwWs "Global" s

/-- `possibly_starting_proof` (lines 1844-1848). -/
def possibly_starting_proof (command : String) : Bool :=
  starterMatches (optStarterPre (pyStrip (kill_comments command).data))

/-- `preprocess_command` (lines 1960-1965):
`re.fullmatch(r"\s*Require\s+Import\s+Coq\.([\w\.'])", cmd)` — note the
single-character capture group in the source.  Both branches return a
one-element list. -/
def preprocess_command (cmd : String) : List String :=
  let m : Option Char := do
    let r1 ← litM "Require".data (cmd.data.dropWhile pyIsSpace)
    let r2 ← wsPlus r1
    let r3 ← litM "Import".data r2
    let r4 ← wsPlus r3
    let r5 ← litM "Coq.".data r4
    match r5 with
    | [c] => if pyIsWordAposDot c then some c else none
    | _ => none
  match m with
  | some c => [String.mk ("Require Import ".data ++ [c])]
  | none => [cmd]

/-- The `Module` opening regex of `update_sm_stack` (line 1897):
`Module\s+(?:(?:Import|Export)\s+)?(?:Type\s+)?([\w']*)`.  The optional
groups need no backtracking since the name group may be empty. -/
def matchModuleStart (s : List Char) : Option String := do
  let r1 ← kwWs "Module" s
  let r2 :=
    match kwWs "Import" r1 with
    | some r => r
    | none => optKwWs "Export" r1
  let r3 := optKwWs "Type" r2
  some (String.mk (r3.takeWhile pyIsWordApos))

/-- Does `.*:=` match from this position (no DOTALL): an occurrence of `:=`
not preceded by a newline from the starting position. -/
def dotEqAheadOneLine : List Char → Bool
  | [] => false
  | c :: cs =>
    if c = '\n' then false
    else startsWithL (c :: cs) [':', '='] || dotEqAheadOneLine cs

/-- The `Section` regex of `update_sm_stack` (line 1901):
`Section\s+([\w']*)(?!.*:=)`.  Backtracking out of the greedy name group
cannot change the lookahead's outcome (the shed characters are word
characters, never part of `:=` or a newline), so the greedy position is
decisive. -/
def matchSectionStart (s : List Char) : Option String := do
  let r1 ← kwWs "Section" s
  let name := r1.takeWhile pyIsWordApos
  if dotEqAheadOneLine (r1.drop name.length) then none
  else some (String.mk name)

/-- The `End` regex of `update_sm_stack` (line 1903): `End\s+([\w']*)\.`.
The greedy name group is followed by a literal `.`, which is not a name
character, so no backtracking occurs. -/
def matchEndCmd (s : List Char) : Option String := do
  let r1 ← kwWs "End" s
  let name := r1.takeWhile pyIsWordApos
  match r1.drop name.length with
  | '.' :: _ => some (String.mk name)
  | _ => none

/-- `update_sm_stack` (lines 1893-1915).  The Python function operates on a
copy (`list(sm_stack)`) and returns it, so it is a pure function of its
input; the failing `assert` (or the `IndexError` raised while formatting
its message on an empty stack) on an unmatched `End` is `none`. -/
def update_sm_stack (sm_stack : List (String × Bool)) (cmd : String) :
    Option (List (String × Bool)) :=
  let stripped := pyStrip (kill_comments cmd).data
  let module_start :=
    if countSub stripped [':', '='] > countSub stripped "with".data then none
    else matchModuleStart stripped
  match module_start with
  | some name => some (sm_stack ++ [(name, false)])
  | none =>
    match matchSectionStart stripped with
    | some name => some (sm_stack ++ [(name, true)])
    | none =>
      match matchEndCmd stripped with
      | some name =>
        match sm_stack.getLast? with
        | some (top, _) =>
          if top = name then some sm_stack.dropLast else none
        | none => none
      | none => some sm_stack

/-- `module_prefix_from_stack` (lines 1918-1919); also the semantics of the
instance property `module_prefix` (lines 459-461). -/
def module_prefix_from_stack (sm_stack : List (String × Bool)) : String :=
  String.join ((sm_stack.filter (fun sm => !sm.2)).map (fun sm => sm.1 ++ "."))

/-- Modelled from the spec: `util.split_by_char_outside_matching` (util.py
is not under src/), at its call site (line 419) with open/close patterns
`\(`, `\)` and split pattern `:`.  Splits at the first occurrence of the
split character outside parenthesis nesting; the remainder starts with the
occurrence itself (the caller reads `body[1:]`); `none` when there is no
such occurrence (`unwrap` then raises). -/
def splitOutsideMatching (openC closeC splitC : Char) :
    List Char → Nat → Option (List Char × List Char)
  | [], _ => none
  | c :: cs, depth =>
    if c = splitC ∧ depth = 0 then some ([], c :: cs)
    else
      let d' := if c = openC then depth + 1
                else if c = closeC then depth - 1 else depth
      match splitOutsideMatching openC closeC splitC cs d' with
      | some (pre, post) => some (c :: pre, post)
      | none => none

/-- First `some` among a list of alternatives. -/
def firstSomeL {α : Type} : List (Option α) → Option α
  | [] => none
  | some a :: _ => some a
  | none :: rest => firstSomeL rest

/-- A keyword alternative together with its required trailing `\s+`. -/
def altKw (ks : List Char) (s : List Char) : Option (List Char) := do
  let r ← litM ks s
  wsPlus r

/-- The `normal_lemma_starting_patterns` union of the `_lemmas_defined_by_stmt`
regex (lines 410-415), each alternative taken together with the following
required `\s+`; alternatives are tried in source order, which matches the
regex's leftmost-alternation with backtracking (an alternative whose
trailing `\s+` fails lets the next one try). -/
def afterNormalStarter (s : List Char) : Option (List Char) :=
  firstSomeL [
    altKw "Lemma".data (optKwWs "Polymorphic" (optKwWs "Program" s)),
    altKw "Coercion".data s,
    altKw "Theorem".data (optKwWs "Polymorphic" s),
    altKw "Remark".data s,
    altKw "Proposition".data s,
    altKw "Definition".data (optKwWs "Polymorphic" s),
    (kwWs "Program" s).bind (altKw "Definition".data),
    (kwWs "Program" s).bind (altKw "Instance".data),
    altKw "Example".data s,
    altKw "Fixpoint".data s,
    altKw "Corollary".data s,
    altKw "Let".data s,
    altKw "Instance".data (optKwWs "Polymorphic" s),
    altKw "Function".data s,
    altKw "Property".data s,
    altKw "Fact".data s,
    (litM "Equations".data s).bind
      (fun r => wsPlus (match r with | '?' :: rr => rr | _ => r))]

/-- Match `\s+as\s+(\w*)\.` at this position, returning the name group. -/
def matchAsTail (s : List Char) : Option String := do
  let r1 ← wsPlus s
  let r2 ← litM "as".data r1
  let r3 ← wsPlus r2
  let nm := r3.takeWhile pyIsWord
  match r3.drop nm.length with
  | '.' :: _ => some (String.mk nm)
  | _ => none

/-- The greedy `(.*)\s+as\s+(\w*)\.` tail of the morphism regex (line 435):
the signature group extends to the last position where the `as` tail
matches. -/
def lastAsSplit : List Char → Option (List Char × String)
  | [] => none
  | c :: cs =>
    match lastAsSplit cs with
    | some (pre, nm) => some (c :: pre, nm)
    | none =>
      match matchAsTail (c :: cs) with
      | some nm => some ([], nm)
      | none => none

/-- The greedy `.*with signature` part of the morphism regex: the last
occurrence of `with signature` after which the signature/`as` tail
matches. -/
def morphTail : List Char → Option (String × String)
  | [] => none
  | c :: cs =>
    match morphTail cs with
    | some r => some r
    | none =>
      match litM "with signature".data (c :: cs) with
      | some rest =>
        match lastAsSplit rest with
        | some (pre, nm) => some (String.mk pre, nm)
        | none => none
      | none => none

/-- The greedy `.*Prop\s*:=(.*)` tail of the `Inductive` regex (line 440):
rest of the string after the last `Prop\s*:=`. -/
def propTail : List Char → Option (List Char)
  | [] => none
  | c :: cs =>
    match propTail cs with
    | some r => some r
    | none => do
      let r1 ← litM "Prop".data (c :: cs)
      litM [':', '='] (r1.dropWhile pyIsSpace)

/-- The greedy `.*Inductive\s*\w+\s*:` part of the `Inductive` regex: the
last occurrence of `Inductive` followed by a name, a colon and a matching
`Prop :=` tail. -/
def indMatch : List Char → Option (List Char)
  | [] => none
  | c :: cs =>
    match indMatch cs with
    | some r => some r
    | none => do
      let r1 ← litM "Inductive".data (c :: cs)
      let r2 := r1.dropWhile pyIsSpace
      let nm := r2.takeWhile pyIsWord
      match nm with
      | [] => none
      | _ :: _ =>
        match (r2.drop nm.length).dropWhile pyIsSpace with
        | ':' :: r4 => propTail r4
        | _ => none

/-- `re.finditer(r"\|\s*(\w+\s*:[^|]*)", …)` over the constructor block
(lines 443-447): non-overlapping matches scanned left to right; the group
starts at the constructor name (the `\s*` after `\|` is outside the group)
and extends up to the next `|`.  Fuel equals the scanned length, which
strictly decreases at every step. -/
def constructorScanF : Nat → List Char → List String
  | 0, _ => []
  | _, [] => []
  | fuel + 1, c :: cs =>
    if c = '|' then
      let r := cs.dropWhile pyIsSpace
      let nm := r.takeWhile pyIsWord
      match nm with
      | [] => constructorScanF fuel cs
      | _ :: _ =>
        match (r.drop nm.length).dropWhile pyIsSpace with
        | ':' :: _ =>
          let grp := r.takeWhile (fun ch => ch ≠ '|')
          String.mk grp :: constructorScanF fuel (r.drop grp.length)
        | _ => constructorScanF fuel cs
    else constructorScanF fuel cs

/-- `_lemmas_defined_by_stmt` (lines 408-453), with the instance property
`module_prefix` passed explicitly.  `none` models the exception raised when
the normal-lemma branch finds no top-level `:` (`unwrap` of `None`,
line 419). -/
def lemmas_defined_by_stmt ( module_prefix : String) (cmd : String) :
    Option (List String) :=
  let s := (kill_comments cmd).data
  match afterNormalStarter (optStarterPre (s.dropWhile pyIsSpace)) with
  | some r =>
    let name := r.takeWhile pyIsWordApos
    let rest := r.drop name.length
    match splitOutsideMatching '(' ')' ':' rest 0 with
    | none => none
    | some (binders, body) =>
      if pyStrip binders ≠ [] then
        some [ module_prefix ++ String.mk name ++ " : forall " ++
              String.mk binders ++ ", " ++ String.mk (body.drop 1)]
      else
        some [ module_prefix ++ String.mk name ++ " " ++ String.mk body]
  | none =>
    match (do
        let r1 ← litM "Goal".data (s.dropWhile pyIsSpace)
        wsPlus r1) with
    | some rest => some [": " ++ String.mk rest]
    | none =>
      match (do
          let r1 ← kwWs "Add" (s.dropWhile pyIsSpace)
          let r2 := optKwWs "Parametric" r1
          let r3 ← litM "Morphism".data r2
          morphTail r3) with
      | some (sig, nm) => some [nm ++ " : " ++ sig]
      | none =>
        match indMatch s with
        | some body =>
          some ((constructorScanF body.length body).map
            (fun c => module_prefix ++ c))
        | none =>
          if hasSubstr s "Obligation".data then some [":"]
          else some []

/-- `TacticTree` (lines 126-136): children are either nested trees or
`(tactic, state_id)` entries. -/
inductive TacticTree where
  | node (children : List (TacticTree ⊕ String × Int)) : TacticTree
deriving Repr

/-- The children list of a tree node. -/
def TacticTree.children : TacticTree → List (TacticTree ⊕ String × Int)
  | .node cs => cs

/-- An element of `TacticHistory.getFullHistory` (lines 215-224): the
Python generator yields the strings `"{"`/`"}"` around nested frames and
the `(tactic, sid)` tuples themselves. -/
inductive HistItem where
  | openB
  | closeB
  | entry (tactic : String) (sid : Int)
deriving DecidableEq, Repr

mutual

/-- `TacticHistory.getFullHistory`'s generator (lines 215-224) applied to a
tree. -/
def TacticTree.fullHist : TacticTree → List HistItem
  | .node cs => fullHistList cs

/-- `getFullHistory` over a children list. -/
def fullHistList : List (TacticTree ⊕ String × Int) → List HistItem
  | [] => []
  | .inl t :: rest =>
    HistItem.openB :: (TacticTree.fullHist t ++ HistItem.closeB :: fullHistList rest)
  | .inr (s, i) :: rest => HistItem.entry s i :: fullHistList rest

end

/-- Walk `d` steps along the last-child spine, as the Python loops
`for i in range(depth): assert isinstance(children[-1], TacticTree);
curTree = curTree.children[-1]` do; a failing `isinstance` assert is
`none`. -/
def navigate : TacticTree → Nat → Option TacticTree
  | t, 0 => some t
  | t, d + 1 =>
    match t.children.getLast? with
    | some (.inl sub) => navigate sub d
    | _ => none

/-- Rebuild the tree after applying `f` to the children of the node `d`
steps along the last-child spine. -/
def modifyAt (t : TacticTree) (d : Nat)
    (f : List (TacticTree ⊕ String × Int) →
         Option (List (TacticTree ⊕ String × Int))) :
    Option TacticTree :=
  match d with
  | 0 => (f t.children).map TacticTree.node
  | d + 1 =>
    match t.children.getLast? with
    | some (.inl sub) =>
      (modifyAt sub d f).map
        (fun sub' => TacticTree.node (t.children.dropLast ++ [.inl sub']))
    | _ => none

/-- `TacticHistory` (lines 139-246): the tactic tree, the current subgoal
depth (a Python `int`, kept as `Int` so that non-negativity is a real
property, with `range(depth)` iterating `depth.toNat` times), and the
shadow stack `__subgoal_tree` of background obligations per frame. -/
structure TacticHistory where
  tree : TacticTree
  cur_subgoal_depth : Int
  subgoal_tree : List (List Obligation)
deriving Repr

/-- `TacticHistory.__init__` (lines 144-147). -/
def TacticHistory.empty : TacticHistory := ⟨.node [], 0, []⟩

/-- `TacticHistory.getFullHistory` (lines 215-224). -/
def TacticHistory.getFullHistory (th : TacticHistory) : List HistItem :=
  TacticTree.fullHist th.tree

/-- `TacticHistory.openSubgoal` (lines 149-158). -/
def TacticHistory.openSubgoal (th : TacticHistory)
    (background_subgoals : List Obligation) : Option TacticHistory :=
  (modifyAt th.tree th.cur_subgoal_depth.toNat
      (fun cs => some (cs ++ [.inl (.node [])]))).map
    (fun t' => ⟨t', th.cur_subgoal_depth + 1,
                th.subgoal_tree ++ [background_subgoals]⟩)

/-- `TacticHistory.closeSubgoal` (lines 160-164); the failing `assert`
(and a `pop` from an empty shadow stack) is `none`. -/
def TacticHistory.closeSubgoal (th : TacticHistory) : Option TacticHistory :=
  if 0 < th.cur_subgoal_depth then
    match th.subgoal_tree with
    | [] => none
    | _ :: _ =>
      some ⟨th.tree, th.cur_subgoal_depth - 1, th.subgoal_tree.dropLast⟩
  else none

/-- `TacticHistory.addTactic` (lines 169-175). -/
def TacticHistory.addTactic (th : TacticHistory) (tactic : String)
    (sid : Int) : Option TacticHistory :=
  (modifyAt th.tree th.cur_subgoal_depth.toNat
      (fun cs => some (cs ++ [.inr (tactic, sid)]))).map
    (fun t' => ⟨t', th.cur_subgoal_depth, th.subgoal_tree⟩)

/-- `TacticHistory.removeLast` (lines 177-201): pop the last tactic entry
of the focused frame; if the focused frame is empty, pop the frame itself
(depth and shadow stack decrease); if the frame's last child is a nested
frame, re-enter it (depth and shadow stack grow). -/
def TacticHistory.removeLast (th : TacticHistory)
    (all_subgoals : List Obligation) : Option TacticHistory :=
  match th.tree.children with
  | [] => none
  | _ :: _ =>
    match navigate th.tree th.cur_subgoal_depth.toNat with
    | none => none
    | some cur =>
      match cur.children.getLast? with
      | none =>
        match modifyAt th.tree (th.cur_subgoal_depth - 1).toNat
            (fun cs =>
              match cs with
              | [] => none
              | _ :: _ => some cs.dropLast) with
        | none => none
        | some t' =>
          match th.subgoal_tree with
          | [] => none
          | _ :: _ =>
            some ⟨t', th.cur_subgoal_depth - 1, th.subgoal_tree.dropLast⟩
      | some (.inr _) =>
        (modifyAt th.tree th.cur_subgoal_depth.toNat
            (fun cs =>
              match cs with
              | [] => none
              | _ :: _ => some cs.dropLast)).map
          (fun t' => ⟨t', th.cur_subgoal_depth, th.subgoal_tree⟩)
      | some (.inl _) =>
        some ⟨th.tree, th.cur_subgoal_depth + 1,
              th.subgoal_tree ++ [all_subgoals]⟩

/-- The tuple children of one node, in order. -/
def tupleChildren (cs : List (TacticTree ⊕ String × Int)) :
    List (String × Int) :=
  cs.filterMap (fun c => match c with | .inr e => some e | .inl _ => none)

/-- `TacticHistory.getCurrentHistory` (lines 203-213) applied to a tree:
tuples along the last-child spine from the root down to the focused frame;
the `isinstance` asserts while descending are `none`. -/
def currentHistAux : TacticTree → Nat → Option (List (String × Int))
  | t, 0 => some (tupleChildren t.children)
  | t, d + 1 =>
    match t.children.getLast? with
    | some (.inl sub) =>
      (currentHistAux sub d).map (fun rest => tupleChildren t.children ++ rest)
    | _ => none

/-- `TacticHistory.getCurrentHistory` (lines 203-213). -/
def TacticHistory.getCurrentHistory (th : TacticHistory) :
    Option (List (String × Int)) :=
  currentHistAux th.tree th.cur_subgoal_depth.toNat

/-- `TacticHistory.getNextCancelled` (lines 229-243): `"{"` when the
focused frame is empty, `"}"` when its last child is a nested frame,
otherwise the last `(tactic, sid)` entry; the root-nonempty assert and the
descent asserts are `none`. -/
def TacticHistory.getNextCancelled (th : TacticHistory) : Option HistItem :=
  match th.tree.children with
  | [] => none
  | _ :: _ =>
    match navigate th.tree th.cur_subgoal_depth.toNat with
    | none => none
    | some cur =>
      match cur.children.getLast? with
      | none => some HistItem.openB
      | some (.inl _) => some HistItem.closeB
      | some (.inr (s, i)) => some (HistItem.entry s i)

/-- Python `cancelled[0]` in `cancel_last` (line 1172): the first character
of the strings `"{"`/`"}"` is the string itself, and indexing a tuple gives
its tactic-text component. -/
def HistItem.cancelledStr : HistItem → String
  | .openB => "\x7b"
  | .closeB => "\x7d"
  | .entry s _ => s

/-- A `TacticHistory` mutation, for quantifying over operation sequences
(spec section 3 / lines 139-201). -/
inductive THOp where
  | openSub (bg : List Obligation)
  | closeSub
  | addTac (tactic : String) (sid : Int)
  | removeL (all_subgoals : List Obligation)

/-- Apply one history operation; `none` when its preconditions (the
Python asserts and list indexing) fail. -/
def execTHOp (th : TacticHistory) : THOp → Option TacticHistory
  | .openSub bg => th.openSubgoal bg
  | .closeSub => th.closeSubgoal
  | .addTac s sid => th.addTactic s sid
  | .removeL all => th.removeLast all

/-- Apply a sequence of history operations. -/
def execTHOps (ops : List THOp) (th : TacticHistory) : Option TacticHistory :=
  ops.foldlM execTHOp th

/-- Classifier-level view of a normalized prover message (spec section 4.C;
the shapes matched by the pampy patterns throughout the source).  Only the
components the modelled paths inspect are carried: `answerCoqExn` holds the
`(str …)` leaves collected by `searchStrsInMsg`, `feedback` its doc and
span ids. -/
inductive SMsg where
  | answerAck (snum : Int)
  | answerCompleted (snum : Int)
  | answerAdded (snum : Int) (sid : Int)
  | answerCanceled (snum : Int) (sids : List Int)
  | answerObjList (snum : Int)
  | answerCoqExn (snum : Int) (strs : List String)
  | feedback (doc_id : Int) (span_id : Int)
  | sysBreak
deriving DecidableEq, Repr

/-- Python `min` over a list of ints; `none` is the `ValueError` on an
empty list. -/
def listMin : List Int → Option Int
  | [] => none
  | x :: xs => some (xs.foldl min x)

/-- Error taxonomy of the modelled message-layer paths (lines 57-119). -/
inductive DriverErr where
  | coqExn
  | badResponse
  | completedError
  | coqAnomaly
  | valueError
deriving DecidableEq, Repr

/-- `_get_cancelled` (lines 1232-1260) as a function of the inbound message
sequence.  The first message must be a `Feedback`, whose `span_id` becomes
the returned state number; the second must be `Answer (Canceled ids)`,
whose minimum is computed (`min(statenums)`, line 1251 — a `ValueError` on
an empty list) but *not* returned; the `finally` block drains one
`Completed` message even on the error paths (an unexpected message there
supersedes the pending exception with `CompletedError`). -/
def get_cancelled (msgs : List SMsg) : Except DriverErr (Int × List SMsg) :=
  match msgs with
  | .feedback _ span :: rest =>
    match rest with
    | .answerCanceled _ sids :: rest2 =>
      (match listMin sids with
       | none =>
         match rest2 with
         | .answerCompleted _ :: _ => .error .valueError
         | _ => .error .completedError
       | some _ =>
         match rest2 with
         | .answerCompleted _ :: rest3 => .ok (span, rest3)
         | _ => .error .completedError)
    | .answerCoqExn _ _ :: rest2 =>
      (match rest2 with
       | .answerCompleted _ :: _ => .error .coqExn
       | _ => .error .completedError)
    | _ :: rest2 =>
      (match rest2 with
       | .answerCompleted _ :: _ => .error .badResponse
       | _ => .error .completedError)
    | [] => .error .badResponse
  | .answerCoqExn _ strs :: rest =>
    (match rest with
     | .answerCompleted _ :: _ =>
       if strs.any (fun st => hasSubstr st.data "Stack overflow".data)
       then .error .coqAnomaly else .error .coqExn
     | _ => .error .completedError)
  | _ :: rest =>
    (match rest with
     | .answerCompleted _ :: _ => .error .badResponse
     | _ => .error .completedError)
  | [] => .error .badResponse

/-- Is this message matched by the text test `msg.startswith('(Feedback')`
(line 1481)? -/
def SMsg.isFeedbackText : SMsg → Bool
  | .feedback _ _ => true
  | _ => false

/-- `got_answer_after_interrupt` (lines 1503-1509): an `Answer` that is not
a `CoqExn`. -/
def SMsg.isAnswerNonExn : SMsg → Bool
  | .answerAck _ => true
  | .answerCompleted _ => true
  | .answerAdded _ _ => true
  | .answerCanceled _ _ => true
  | .answerObjList _ => true
  | _ => false

/-- `isBreakMessage` (lines 1783-1786). -/
def SMsg.isBreak : SMsg → Bool
  | .sysBreak => true
  | _ => false

/-- Does the raw line of this message start with `(` (the skip test of
`_get_message`, line 1457)?  A bare `Sys.Break` atom does not. -/
def SMsg.startsParen : SMsg → Bool
  | .sysBreak => false
  | _ => true

/-- One `message_queue.get(timeout=…)` outcome: either a message or
`queue.Empty`; an exhausted script keeps timing out. -/
inductive QEvent where
  | msg (m : SMsg)
  | timeout
deriving DecidableEq, Repr

/-- Pop the next queue event. -/
def nextEv : List QEvent → QEvent × List QEvent
  | [] => (QEvent.timeout, [])
  | e :: rest => (e, rest)

/-- Errors raised out of the `_get_message_text` family. -/
inductive MsgErr where
  | timeoutError
  | coqAnomalyTimeout
  | completedError
  | assertFail
  | fuelOut
deriving DecidableEq, Repr

/-- Result of one `_get_message_text` invocation: the returned message or
the raised error, the remaining queue script, and the number of SIGINT
signals this invocation sent directly (`self._proc.send_signal`, lines
1489 and 1495; nested `_get_completed` calls are separate invocations with
their own counts). -/
structure GmtOut where
  res : Except MsgErr SMsg
  rest : List QEvent
  sigints : Nat
deriving Repr

/-- `for i in range(num_breaks)` in the answer-after-interrupt path (lines
1512-1519): each drained message must be a `Sys.Break`
(`assert isBreakMessage(...)`); a timeout raises `CoqAnomaly`. -/
def drainBreaksF : Nat → List QEvent → (Except MsgErr Unit) × List QEvent
  | 0, r => (.ok (), r)
  | k + 1, r =>
    match nextEv r with
    | (.msg m, r2) =>
      if m.isBreak then drainBreaksF k r2 else (.error .assertFail, r2)
    | (.timeout, r2) => (.error .coqAnomalyTimeout, r2)

/-- `for i in range(num_breaks)` in the no-answer path (lines 1523-1528):
drained messages are discarded unchecked; a timeout raises `CoqAnomaly`. -/
def drainAnyF : Nat → List QEvent → (Except MsgErr Unit) × List QEvent
  | 0, r => (.ok (), r)
  | k + 1, r =>
    match nextEv r with
    | (.msg _, r2) => drainAnyF k r2
    | (.timeout, r2) => (.error .coqAnomalyTimeout, r2)

mutual

/-- `_get_message_text` (lines 1477-1532).  `fuel` only bounds the nested
recursion through `_get_completed`/`_get_message` (which consume at least
one script event per level); it is adequate for any fuel at least the
script length plus one, and no modelled path loops otherwise. -/
def gmtF : Nat → List QEvent → Bool → Bool → GmtOut
  | 0, script, _, _ => ⟨.error .fuelOut, script, 0⟩
  | f + 1, script, complete, skip =>
    match nextEv script with
    | (.msg m, r1) => gmtTryF f m r1 complete skip
    | (.timeout, r1) =>
      match nextEv r1 with
      | (.msg ir, r2) => afterInterruptF f ir r2 1
      | (.timeout, r2) =>
        match nextEv r2 with
        | (.msg ir, r3) => afterInterruptF f ir r3 2
        | (.timeout, r3) => ⟨.error .coqAnomalyTimeout, r3, 2⟩

/-- The `try` body of `_get_message_text` (lines 1479-1486), entered with a
first dequeued message `m`; `queue.Empty` inside the `skip_feedback` loop
lands in the same `except` handler. -/
def gmtTryF : Nat → SMsg → List QEvent → Bool → Bool → GmtOut
  | 0, _, script, _, _ => ⟨.error .fuelOut, script, 0⟩
  | f + 1, m, r, complete, skip =>
    if skip ∧ m.isFeedbackText then
      match nextEv r with
      | (.msg m2, r2) => gmtTryF f m2 r2 complete skip
      | (.timeout, r2) =>
        match nextEv r2 with
        | (.msg ir, r3) => afterInterruptF f ir r3 1
        | (.timeout, r3) =>
          match nextEv r3 with
          | (.msg ir, r4) => afterInterruptF f ir r4 2
          | (.timeout, r4) => ⟨.error .coqAnomalyTimeout, r4, 2⟩
    else
      if complete then
        match getCompletedF f r with
        | (.ok _, r2) => ⟨.ok m, r2, 0⟩
        | (.error e, r2) => ⟨.error e, r2, 0⟩
      else ⟨.ok m, r, 0⟩

/-- The interrupt aftermath (lines 1503-1531), with `n` interrupts already
sent and `ir` the response obtained after them. -/
def afterInterruptF : Nat → SMsg → List QEvent → Nat → GmtOut
  | 0, _, script, n => ⟨.error .fuelOut, script, n⟩
  | f + 1, ir, r, n =>
    if ir.isAnswerNonExn then
      match getCompletedF f r with
      | (.error e, r2) => ⟨.error e, r2, n⟩
      | (.ok _, r2) =>
        match drainBreaksF n r2 with
        | (.ok _, r3) => ⟨.ok ir, r3, n⟩
        | (.error e, r3) => ⟨.error e, r3, n⟩
    else
      match drainAnyF n r with
      | (.error e, r2) => ⟨.error e, r2, n⟩
      | (.ok _, r2) =>
        match getCompletedF f r2 with
        | (.ok _, r3) => ⟨.error .timeoutError, r3, n⟩
        | (.error e, r3) => ⟨.error e, r3, n⟩

/-- `_get_message` (lines 1454-1475) without the `complete` flag: fetch a
message text, skipping lines that do not start with `(`. -/
def getMessageF : Nat → List QEvent → (Except MsgErr SMsg) × List QEvent
  | 0, script => (.error .fuelOut, script)
  | f + 1, script =>
    let out := gmtF f script false false
    match out.res with
    | .error e => (.error e, out.rest)
    | .ok m => if m.startsParen then (.ok m, out.rest) else getMessageF f out.rest

/-- `_get_completed` (lines 1273-1277). -/
def getCompletedF : Nat → List QEvent → (Except MsgErr Unit) × List QEvent
  | 0, script => (.error .fuelOut, script)
  | f + 1, script =>
    match getMessageF f script with
    | (.error e, rest) => (.error e, rest)
    | (.ok m, rest) =>
      match m with
      | .answerCompleted _ => (.ok (), rest)
      | _ => (.error .completedError, rest)

end

/-- What `_handle_exception`'s CoqExn dispatch (lines 755-793) raises. -/
inductive RaisedExn where
  | parseError
  | noSuchGoalError
  | coqAnomaly
  | reraise
  | coqExn
deriving DecidableEq, Repr

/-- Effects of the CoqExn dispatch of `_handle_exception`: the exception
raised, the resulting `cur_state`, whether the pending `Completed` was
drained (`self._get_completed()`), and whether `cancel_failed` was
invoked. -/
structure HandlerResult where
  raised : RaisedExn
  cur_state : Int
  drained_completed : Bool
  cancel_failed_called : Bool
deriving DecidableEq, Repr

/-- Drop everything up to and including the first occurrence of `p`. -/
def dropAfterFirstOcc : List Char → List Char → Option (List Char)
  | [], _ => none
  | c :: cs, p =>
    if startsWithL (c :: cs) p then some ((c :: cs).drop p.length)
    else dropAfterFirstOcc cs p

/-- `re.match(r".*The identifier (.*) is reserved\..*", msg)` (line 786):
without DOTALL every `.*` stays on the first line, so the pattern matches
iff the first line contains `The identifier ` followed later by
` is reserved.`. -/
def reservedIdentMatch (s : List Char) : Bool :=
  let line1 := s.takeWhile (fun c => c ≠ '\n')
  match dropAfterFirstOcc line1 "The identifier ".data with
  | some rest => hasSubstr rest " is reserved.".data
  | none => false

/-- The `coqexn_msg` dispatch of `_handle_exception` (lines 755-793): the
`elif` chain of substring tests on the concatenation of the `(str …)`
leaves of the `CoqExn` payload, given the driver's `cur_state` and
`prev_state`.  Only the first branch resets `cur_state`; the
`Invalid_argument` branch drains nothing. -/
def handle_exception_coqexn (msg : String) (cur prev : Int) : HandlerResult :=
  let has := fun (pat : String) => hasSubstr msg.data pat.data
  if has "Stream\\.Error" || has "Syntax error" || has "Syntax Error" then
    ⟨.parseError, prev, true, false⟩
  else if has "CLexer.Error" then
    ⟨.parseError, cur, true, false⟩
  else if has "NoSuchGoals" then
    ⟨.noSuchGoalError, cur, true, true⟩
  else if has "Invalid_argument" then
    ⟨.parseError, cur, false, false⟩
  else if has "Not_found" then
    ⟨.reraise, cur, true, true⟩
  else if has "Overflowed" || has "Stack overflow" then
    ⟨.coqAnomaly, cur, true, false⟩
  else if has "Anomaly" then
    ⟨.coqAnomaly, cur, true, false⟩
  else if has "Unable to unify" then
    ⟨.coqExn, cur, true, true⟩
  else if reservedIdentMatch msg.data then
    ⟨.coqExn, cur, true, false⟩
  else
    ⟨.coqExn, cur, true, true⟩

/-- One entry of the command log `_hist`: `[stmt, accepted, sid]`,
appended as `[stmt, None, -1]` (line 622). -/
structure HistEntry where
  stmt : String
  accepted : Option Bool
  sid : Int
deriving DecidableEq, Repr

/-- The driver's proof-state mirror: the `SerapiInstance` attributes the
claims quantify over (lines 263, 301-304, 319). -/
structure Mirror where
  cur_state : Int
  prev_state : Int
  proof_context : Option ProofContext
  tactic_history : TacticHistory
  local_lemmas : List (String × Bool)
  sm_stack : List (String × Bool)
  hist : List HistEntry
deriving Repr

/-- `_get_proof_context` (lines 1585-1648) as a function of the parsed
`Goals` answer (`resp = none` models the `()` ObjList).  With
`update_nonfg_goals` false and an existing context, the old bg and
given-up goals are kept (lines 1638-1648). -/
def refreshProofContext (old : Option ProofContext) (resp : Option ProofContext)
    (update_nonfg_goals : Bool) : Option ProofContext :=
  match resp with
  | none => none
  | some ctx =>
    if update_nonfg_goals then some ctx
    else
      match old with
      | none => some ctx
      | some o =>
        some ⟨ctx.fg_goals, o.bg_goals, ctx.shelved_goals, o.given_up_goals⟩

/-- `_get_enter_goal_context` (lines 1577-1583):
`assert self.proof_context` and the `fg_goals[0]` indexing are `none`. -/
def get_enter_goal_context : Option ProofContext → Option ProofContext
  | none => none
  | some pc =>
    match pc.fg_goals with
    | [] => none
    | g :: rest =>
      some ⟨[g], pc.bg_goals ++ rest, pc.shelved_goals, pc.given_up_goals⟩

/-- `_add_potential_local_lemmas` (lines 396-406); the `_local_lemmas_cache`
is not part of the mirror model. -/
def add_potential_local_lemmas (local_lemmas : List (String × Bool))
    ( module_prefix cmd : String) : Option (List (String × Bool)) :=
  match lemmas_defined_by_stmt module_prefix cmd with
  | none => none
  | some lemmas =>
    let is_section := hasSubstr cmd.data "Let".data
    some (local_lemmas ++ lemmas.map (fun l => (l, is_section)))

/-- The lemma-name regex `\s*([\w'\.]+)\s*:` of
`_remove_potential_local_lemmas` (line 387); `none` is the failing
`assert lemma_match`. -/
def lemmaNameOf (lem : List Char) : Option String :=
  let r := lem.dropWhile pyIsSpace
  let nm := r.takeWhile pyIsWordAposDot
  match nm with
  | [] => none
  | _ :: _ =>
    match (r.drop nm.length).dropWhile pyIsSpace with
    | ':' :: _ => some (String.mk nm)
    | _ => none

/-- Text before the last `.` of a line; `none` when there is no `.`. -/
def lastDotPrefix : List Char → Option (List Char)
  | [] => none
  | c :: cs =>
    match lastDotPrefix cs with
    | some pre => some (c :: pre)
    | none => if c = '.' then some [] else none

/-- `re.match(r"Reset\s+(.*)\.", cmd)` (line 381): anchored at position 0
(no leading `\s*`), greedy group up to the last `.` of the first line. -/
def resetTarget (cmd : List Char) : Option String := do
  let r1 ← kwWs "Reset" cmd
  let pre ← lastDotPrefix (r1.takeWhile (fun c => c ≠ '\n'))
  some (String.mk pre)

/-- The `Reset` removal loop of `_remove_potential_local_lemmas` (lines
383-391): iterate over a snapshot of the registry, removing every entry
whose name equals the target; a `":"` entry is skipped, and an entry that
fails the name regex is a failing `assert`. -/
def removeResetLoop (target : String) :
    List (String × Bool) → List (String × Bool) → Option (List (String × Bool))
  | [], cur => some cur
  | (lem, is_sec) :: rest, cur =>
    if lem = ":" then removeResetLoop target rest cur
    else
      match lemmaNameOf lem.data with
      | none => none
      | some nm =>
        if nm = target then removeResetLoop target rest (cur.erase (lem, is_sec))
        else removeResetLoop target rest cur

/-- `_remove_potential_local_lemmas` (lines 380-394): `Reset name` removals
followed by the `Abort` pop (`none` when popping an empty registry). -/
def remove_potential_local_lemmas (local_lemmas : List (String × Bool))
    ( module_prefix cmd : String) : Option (List (String × Bool)) := do
  let afterReset ←
    match resetTarget cmd.data with
    | none => some local_lemmas
    | some name => removeResetLoop ( module_prefix ++ name) local_lemmas local_lemmas
  if (litM "Abort".data (cmd.data.dropWhile pyIsSpace)).isSome then
    match afterReset.getLast? with
    | some _ => some afterReset.dropLast
    | none => none
  else some afterReset

/-- Remove each listed pair from the registry; `list.remove` raises
`ValueError` (`none`) when the pair is absent. -/
def removeAllPresent (cur : List (String × Bool)) :
    List (String × Bool) → Option (List (String × Bool))
  | [] => some cur
  | p :: rest =>
    if cur.contains p then removeAllPresent (cur.erase p) rest else none

/-- `_cancel_potential_local_lemmas` (lines 374-378). -/
def cancel_potential_local_lemmas (local_lemmas : List (String × Bool))
    ( module_prefix cmd : String) : Option (List (String × Bool)) :=
  match lemmas_defined_by_stmt module_prefix cmd with
  | none => none
  | some lemmas =>
    let is_section := hasSubstr cmd.data "Let".data
    removeAllPresent local_lemmas (lemmas.map (fun l => (l, is_section)))

/-- `_add_potential_module_stack_cmd` (lines 1725-1735): update the stack
speculatively; popping a section filters section-local lemmas (the
`_module_changed` cache flag is not part of the mirror model). -/
def add_potential_module_stack_cmd (sm_stack : List (String × Bool))
    (local_lemmas : List (String × Bool)) (cmd : String) :
    Option (List (String × Bool) × List (String × Bool)) :=
  match update_sm_stack sm_stack cmd with
  | none => none
  | some new_stack =>
    let lemmas' :=
      if 0 < sm_stack.length ∧ (sm_stack.getLastD ("", false)).2 = true ∧
         new_stack.length < sm_stack.length then
        local_lemmas.filter (fun p => !p.2)
      else local_lemmas
    some (new_stack, lemmas')

/-- `self._hist[-1] := f(self._hist[-1])`; an empty log is an
`IndexError`. -/
def histSetLast (hist : List HistEntry) (f : HistEntry → HistEntry) :
    Option (List HistEntry) :=
  match hist.getLast? with
  | none => none
  | some e => some (hist.dropLast ++ [f e])

/-- The prover's responses during one successful `Add`/`Exec`/`Goals`
exchange of `run_stmt`: the `Added` state id and the parsed answer of the
proof-context query (`none` = not in a proof).  Failing exchanges route to
`_handle_exception` and are modelled separately. -/
structure RunOracle where
  added_sid : Int
  goals_response : Option ProofContext
deriving Repr

/-- The proof-context refresh of `run_stmt` (lines 673-678): on goal-open
the context is rewritten locally by `_get_enter_goal_context` (no prover
query); otherwise `_get_proof_context` parses the prover's answer, keeping
bg/given-up goals unless the statement was a goal-close or `Unshelve`. -/
def runStmPc (stm : String) (old resp : Option ProofContext) :
    Option (Option ProofContext) :=
  if isGoalOpen stm then (get_enter_goal_context old).map some
  else some (refreshProofContext old resp (isGoalClose stm || isUnshelve stm))

/-- The local-lemma block of `run_stmt` (lines 680-684): entering a proof
registers the statement's lemmas; having left one applies `Reset`/`Abort`
removals and requests a fresh tactic history (the returned flag). -/
def runStmLemmaBlock (cb pc2 : Option ProofContext)
    (lems : List (String × Bool)) (mp stm : String) :
    Option (List (String × Bool) × Bool) :=
  if cb.isNone ∧ pc2.isSome then
    (add_potential_local_lemmas lems mp stm).map (fun l => (l, false))
  else if pc2.isNone then
    (remove_potential_local_lemmas lems mp stm).map (fun l => (l, true))
  else some (lems, false)

/-- The tactic-history block of `run_stmt` (lines 686-699): proof starters
and ordinary in-proof statements are recorded with the current state id,
`{` opens a subgoal frame over the old context's non-focused goals
(`assert context_before`, line 690), `}` closes one. -/
def runStmHistBlock (stm : String) (cb pc2 : Option ProofContext)
    (th : TacticHistory) (sid : Int) : Option TacticHistory :=
  if possibly_starting_proof stm ∧ pc2.isSome then th.addTactic stm sid
  else if isGoalOpen stm then do
    let cbv ← cb
    th.openSubgoal (cbv.fg_goals.drop 1)
  else if isGoalClose stm then th.closeSubgoal
  else if pc2.isSome then th.addTactic stm sid
  else some th

/-- The body of `run_stmt`'s per-substatement loop (lines 639-705) on the
mirror, for one preprocessed statement `stm`, given `context_before`
(captured at line 633) and the prover's responses: the speculative
module-stack update, the `Add`/`Exec` state update (`_update_state`, lines
1399-1401; the log entry marked not-yet-accepted, line 668), the
proof-context refresh, the local-lemma block, the tactic-history block,
and the final acceptance of the log entry (lines 704-705).  `none` models
an exception escaping the loop; message-queue bookkeeping, `feedbacks` and
the `return_sexp` path are not part of the mirror. -/
def runStm (context_before : Option ProofContext) (m : Mirror) (stm : String)
    (o : RunOracle) : Option Mirror := do
  let (sm2, lemsA) ← add_potential_module_stack_cmd m.sm_stack m.local_lemmas stm
  let h1 ← histSetLast m.hist (fun e => { e with accepted := some false })
  let pc2 ← runStmPc stm m.proof_context o.goals_response
  let (lemsB, resetH) ← runStmLemmaBlock context_before pc2 lemsA
    ( module_prefix_from_stack sm2) stm
  let thB := if resetH then TacticHistory.empty else m.tactic_history
  let thC ← runStmHistBlock stm context_before pc2 thB o.added_sid
  let h2 ← histSetLast h1
    (fun e => { e with accepted := some true, sid := o.added_sid })
  some ⟨o.added_sid, m.cur_state, pc2, thC, lemsB, sm2, h2⟩

/-- The escaping of `run_stmt` (lines 626-627): `\\` doubled, then `"`
escaped. -/
def escape_stmt (stmt : String) : String :=
  String.mk
    (pyReplace (pyReplace stmt.data ['\\'] ['\\', '\\']) ['"'] ['\\', '"'])

/-- The statements `run_stmt` actually iterates over (lines 626-638):
escaping, comment stripping, then `preprocess_command` (which returns
exactly one statement, cf. `preprocess_singleton`). -/
def processedStmts (stmt : String) : List String :=
  preprocess_command (kill_comments (escape_stmt stmt))

/-- `run_stmt` (lines 614-728) on the mirror for a successful execution:
log append (line 622), escaping and comment stripping, context capture
(line 633), then the loop body for each preprocessed statement (a single
oracle suffices since `preprocess_command` returns one statement). -/
def runStmtMirror (m : Mirror) (stmt : String) (o : RunOracle) : Option Mirror :=
  let m1 := { m with hist := m.hist ++ [⟨stmt, none, -1⟩] }
  (processedStmts stmt).foldlM
    (fun acc stm => runStm m1.proof_context acc stm o) m1

/-- The prover's responses during one `__cancel` exchange: the message
sequence answering `(Cancel …)` and the parsed proof-context answer of the
follow-up `Goals` query. -/
structure CancelOracle where
  msgs : List SMsg
  goals_response : Option ProofContext
deriving Repr

/-- The tactic-history rollback inside `__cancel` (lines 1212-1214): when
the current history's last entry carries the cancelled state id, call
`removeLast` with the old context's fg goals (`context_before.fg_goals` on
a `None` context is an `AttributeError`). -/
def cancelHistStep (th : TacticHistory) (cur_hist : List (String × Int))
    (cancelled_state : Int) (context_before : Option ProofContext) :
    Option TacticHistory :=
  if cur_hist ≠ [] ∧ (cur_hist.getLastD ("", 0)).2 = cancelled_state then do
    let cb ← context_before
    th.removeLast cb.fg_goals
  else some th

/-- The command-log trim inside `__cancel` (lines 1215-1216); an empty log
is the `IndexError` of `self._hist[-1]`. -/
def cancelHistTrim (hist : List HistEntry) (cancelled_state : Int) :
    Option (List HistEntry) :=
  match hist.getLast? with
  | none => none
  | some e =>
    some (if e.sid = cancelled_state then hist.dropLast else hist)

/-- `__cancel` (lines 1195-1222) on the mirror, for the configuration
`reset_on_cancel_fail = False` (the `reset()`-and-replay path restarts the
whole session and is outside the per-operation model): a raised exception
is `none`.  `cancelled_state` is `m.cur_state` and `context_before` is
`m.proof_context`, captured at lines 1200-1201. -/
def cancelInner (m : Mirror) (o : CancelOracle) : Option Mirror := do
  let (new_state, _) ← (get_cancelled o.msgs).toOption
  let pc2 := refreshProofContext m.proof_context o.goals_response true
  let cur_hist ← m.tactic_history.getCurrentHistory
  let th2 ← cancelHistStep m.tactic_history cur_hist m.cur_state
    m.proof_context
  let hist2 ← cancelHistTrim m.hist m.cur_state
  some { m with cur_state := new_state, proof_context := pc2,
                tactic_history := th2, hist := hist2 }

/-- The pre-phase of `cancel_last` (lines 1165-1180): when in a proof with
a non-empty history, look up what is being cancelled and remove the lemma
statements it defined. -/
def cancelLastPre (m : Mirror) : Option Mirror :=
  if m.proof_context.isSome then
    if m.tactic_history.getFullHistory ≠ [] then do
      let cancelled ← m.tactic_history.getNextCancelled
      let lems ← cancel_potential_local_lemmas m.local_lemmas
        ( module_prefix_from_stack m.sm_stack) cancelled.cancelledStr
      some { m with local_lemmas := lems }
    else some m
  else some m

/-- The post-phase of `cancel_last` (lines 1184-1187): with no proof
context left, the history must already be empty (`assert`, line 1185) and
is replaced by a fresh `TacticHistory`. -/
def cancelLastPost (m2 : Mirror) : Option Mirror :=
  if m2.proof_context.isNone then
    if m2.tactic_history.getFullHistory = [] then
      some { m2 with tactic_history := TacticHistory.empty }
    else none
  else some m2

/-- `cancel_last` (lines 1164-1193). -/
def cancel_last (m : Mirror) (o : CancelOracle) : Option Mirror := do
  let m1 ← cancelLastPre m
  let m2 ← cancelInner m1 o
  cancelLastPost m2

/-- `cancel_failed` (lines 1224-1230): a no-op (flag `false`, unchanged
mirror) exactly when the last log entry is accepted (truthy flag) with the
current state id; otherwise `__cancel` runs (flag `true`).  An empty log
is the `IndexError` of `self._hist[-1]`. -/
def cancel_failed (m : Mirror) (o : CancelOracle) : Option (Mirror × Bool) :=
  match m.hist.getLast? with
  | none => none
  | some e =>
    if e.sid = m.cur_state ∧ e.accepted = some true then
      some (m, false)
    else
      (cancelInner m o).map (fun m2 => (m2, true))


/-! ### Concrete instances used by the claim witnesses and counterexamples -/

/-- A one-goal proof context. -/
def cxPc : ProofContext := ⟨[⟨[], ⟨"G", "G"⟩⟩], [], [], []⟩

/-- A two-goal proof context (the prover's answer after a tactic). -/
def cxPc2 : ProofContext := ⟨[⟨[], ⟨"G", "G"⟩⟩, ⟨[], ⟨"H", "H"⟩⟩], [], [], []⟩

/-- A mirror inside the proof of a lemma `l`, one tactic-history entry. -/
def cxM : Mirror :=
  ⟨1, 0, some cxPc, ⟨.node [.inr ("Lemma l : True.", 1)], 0, []⟩,
   [("l : True.", false)], [], [⟨"Lemma l : True.", some true, 1⟩]⟩

/-- A mirror just after `Qed.`: no context, fresh history, `Qed.` logged. -/
def cxQedM : Mirror :=
  ⟨2, 1, none, TacticHistory.empty, [], [], [⟨"Qed.", some true, 2⟩]⟩

/-- Run-oracle answering with state id 2 and a two-goal context. -/
def cxRunO : RunOracle := ⟨2, some cxPc2⟩

/-- Cancel-oracle whose `Goals` answer is empty (proof left). -/
def cxCancO : CancelOracle :=
  ⟨[.feedback 0 0, .answerCanceled 0 [0], .answerCompleted 0], none⟩

/-- The mirror after running `intro.` from `cxM` (answer `cxRunO`). -/
def cxMintro : Mirror :=
  ⟨2, 1, some cxPc2,
   ⟨.node [.inr ("Lemma l : True.", 1), .inr ("intro.", 2)], 0, []⟩,
   [("l : True.", false)], [],
   [⟨"Lemma l : True.", some true, 1⟩, ⟨"intro.", some true, 2⟩]⟩

/-- The mirror after cancelling the `Lemma` statement of `cxM`. -/
def cxMcanc : Mirror := ⟨0, 0, none, TacticHistory.empty, [], [], []⟩

/-- Cancel-oracle whose `Canceled` ids are `[3, 4]` but whose `Feedback`
span id is 5. -/
def cxC2o : CancelOracle :=
  ⟨[.feedback 0 5, .answerCanceled 0 [3, 4], .answerCompleted 0], none⟩

/-- The mirror `cancelInner cxQedM cxC2o` produces. -/
def cxC2m2 : Mirror := ⟨5, 1, none, TacticHistory.empty, [], [], []⟩

/-- The mirror after running a goal-open `\x7b` from `cxM`. -/
def cxMbrace : Mirror :=
  ⟨2, 1, some cxPc,
   ⟨.node [.inr ("Lemma l : True.", 1), .inl (.node [])], 1, [[]]⟩,
   [("l : True.", false)], [],
   [⟨"Lemma l : True.", some true, 1⟩, ⟨"\x7b", some true, 2⟩]⟩

/-! ### Helper lemmas -/

theorem preprocess_singleton (cmd : String) :
    ∃ s, preprocess_command cmd = [s] := by
  unfold preprocess_command
  dsimp only
  split <;> exact ⟨_, rfl⟩

theorem processedStmts_singleton (stmt : String) :
    ∃ s, processedStmts stmt = [s] :=
  preprocess_singleton _

theorem fullHist_nil_iff (t : TacticTree) :
    TacticTree.fullHist t = [] ↔ t.children = [] := by
  cases t with
  | node cs =>
    cases cs with
    | nil => simp [TacticTree.fullHist, fullHistList, TacticTree.children]
    | cons c rest =>
      cases c with
      | inl sub => simp [TacticTree.fullHist, fullHistList, TacticTree.children]
      | inr e =>
        obtain ⟨s, i⟩ := e
        simp [TacticTree.fullHist, fullHistList, TacticTree.children]

theorem navigate_succ {t : TacticTree} {d : Nat} {cur : TacticTree}
    (h : navigate t (d + 1) = some cur) :
    ∃ sub, t.children.getLast? = some (.inl sub) ∧ navigate sub d = some cur := by
  simp only [navigate] at h
  rcases hg : t.children.getLast? with _ | c
  · simp only [hg] at h
    exact Option.noConfusion h
  · rcases c with sub | e
    · simp only [hg] at h
      exact ⟨sub, rfl, h⟩
    · simp only [hg] at h
      exact Option.noConfusion h

theorem navigate_succ_children_ne_nil {t : TacticTree} {d : Nat}
    {cur : TacticTree} (h : navigate t (d + 1) = some cur) :
    t.children ≠ [] := by
  obtain ⟨sub, hg, -⟩ := navigate_succ h
  intro he
  rw [he] at hg
  simp at hg

theorem modifyAt_zero_shape {t t2 : TacticTree} {f}
    (h : modifyAt t 0 f = some t2) :
    ∃ cs2, f t.children = some cs2 ∧ t2 = .node cs2 := by
  simp only [modifyAt] at h
  rcases hf : f t.children with _ | cs2
  · simp only [hf, Option.map_none'] at h
    exact Option.noConfusion h
  · simp only [hf, Option.map_some', Option.some_inj] at h
    exact ⟨cs2, rfl, h.symm⟩

theorem modifyAt_succ_shape {t t2 : TacticTree} {d : Nat} {f}
    (h : modifyAt t (d + 1) f = some t2) :
    ∃ sub sub2, t.children.getLast? = some (.inl sub) ∧
      modifyAt sub d f = some sub2 ∧
      t2 = .node (t.children.dropLast ++ [.inl sub2]) := by
  simp only [modifyAt] at h
  rcases hg : t.children.getLast? with _ | c
  · simp only [hg] at h
    exact Option.noConfusion h
  · rcases c with sub | e
    · simp only [hg] at h
      rcases hm : modifyAt sub d f with _ | sub2
      · simp only [hm, Option.map_none'] at h
        exact Option.noConfusion h
      · simp only [hm, Option.map_some', Option.some_inj] at h
        exact ⟨sub, sub2, rfl, hm, h.symm⟩
    · simp only [hg] at h
      exact Option.noConfusion h

theorem modifyAt_append_root_ne_nil {t t2 : TacticTree} {d : Nat}
    {x : TacticTree ⊕ String × Int}
    (h : modifyAt t d (fun cs => some (cs ++ [x])) = some t2) :
    t2.children ≠ [] := by
  cases d with
  | zero =>
    obtain ⟨cs2, hf, ht2⟩ := modifyAt_zero_shape h
    simp only [Option.some_inj] at hf
    subst ht2
    simp [TacticTree.children, ← hf]
  | succ d =>
    obtain ⟨sub, sub2, -, -, ht2⟩ := modifyAt_succ_shape h
    subst ht2
    simp [TacticTree.children]

theorem modifyAt_navigate {d : Nat} :
    ∀ {t cur t2 : TacticTree} {f},
      navigate t d = some cur → modifyAt t d f = some t2 →
      ∃ cs2, f cur.children = some cs2 ∧ navigate t2 d = some (.node cs2) := by
  induction d with
  | zero =>
    intro t cur t2 f hnav h
    obtain ⟨cs2, hf, ht2⟩ := modifyAt_zero_shape h
    simp only [navigate, Option.some_inj] at hnav
    subst hnav
    subst ht2
    exact ⟨cs2, hf, rfl⟩
  | succ d ih =>
    intro t cur t2 f hnav h
    obtain ⟨sub, hg, hnav2⟩ := navigate_succ hnav
    obtain ⟨sub', sub2, hg', hm, ht2⟩ := modifyAt_succ_shape h
    rw [hg] at hg'
    simp only [Option.some_inj, Sum.inl.injEq] at hg'
    subst hg'
    obtain ⟨cs2, hf, hnavr⟩ := ih hnav2 hm
    refine ⟨cs2, hf, ?_⟩
    subst ht2
    simp only [navigate, TacticTree.children, List.getLast?_concat]
    exact hnavr

theorem getLast?_decomp {α : Type} {l : List α} {a : α}
    (h : l.getLast? = some a) : l.dropLast ++ [a] = l := by
  induction l with
  | nil => exact Option.noConfusion h
  | cons x xs ih =>
    cases xs with
    | nil =>
      simp only [List.getLast?_singleton, Option.some_inj] at h
      subst h
      rfl
    | cons y ys =>
      have h2 : (y :: ys).getLast? = some a := by
        simpa [List.getLast?_cons_cons] using h
      have h3 := ih h2
      simp only [List.dropLast_cons₂, List.cons_append, h3]

theorem tree_eta (t : TacticTree) : TacticTree.node t.children = t := by
  cases t
  rfl

theorem tupleChildren_append (a b : List (TacticTree ⊕ String × Int)) :
    tupleChildren (a ++ b) = tupleChildren a ++ tupleChildren b := by
  simp [tupleChildren, List.filterMap_append]

theorem tupleChildren_inl (sub : TacticTree) :
    tupleChildren [.inl sub] = [] := by
  simp [tupleChildren]

theorem tupleChildren_inr (e : String × Int) :
    tupleChildren [.inr e] = [e] := by
  simp [tupleChildren]

theorem modifyAt_append_pop {d : Nat} :
    ∀ {t cur t2 : TacticTree} {x},
      navigate t d = some cur →
      modifyAt t d (fun cs => some (cs ++ [x])) = some t2 →
      modifyAt t2 d
        (fun cs => match cs with | [] => none | _ :: _ => some cs.dropLast) =
        some t := by
  induction d with
  | zero =>
    intro t cur t2 x hnav h
    obtain ⟨cs2, hf, ht2⟩ := modifyAt_zero_shape h
    simp only [Option.some_inj] at hf
    subst ht2
    subst hf
    cases t with
    | node cs =>
      cases cs with
      | nil => simp [modifyAt, TacticTree.children]
      | cons c rest =>
        simp only [modifyAt, TacticTree.children, List.cons_append]
        simp only [Option.map_some', Option.some_inj]
        congr 1
        rw [← List.cons_append, List.dropLast_concat]
  | succ d ih =>
    intro t cur t2 x hnav h
    obtain ⟨sub, hg, hnav2⟩ := navigate_succ hnav
    obtain ⟨sub', sub2, hg', hm, ht2⟩ := modifyAt_succ_shape h
    rw [hg] at hg'
    simp only [Option.some_inj, Sum.inl.injEq] at hg'
    subst hg'
    have hpop := ih hnav2 hm
    subst ht2
    cases t with
    | node cs =>
      simp only [TacticTree.children] at hg
      simp only [modifyAt, TacticTree.children, List.getLast?_concat]
      rw [hpop]
      simp only [Option.map_some', List.dropLast_concat, Option.some_inj]
      rw [getLast?_decomp hg]

theorem currentHistAux_isSome {d : Nat} :
    ∀ {t cur : TacticTree}, navigate t d = some cur →
      (currentHistAux t d).isSome := by
  induction d with
  | zero => intro t cur _; simp [currentHistAux]
  | succ d ih =>
    intro t cur hnav
    obtain ⟨sub, hg, hnav2⟩ := navigate_succ hnav
    simp only [currentHistAux, hg]
    have := ih hnav2
    rcases hc : currentHistAux sub d with _ | l
    · rw [hc] at this; simp at this
    · simp

theorem currentHistAux_append {d : Nat} :
    ∀ {t cur t2 : TacticTree} {x},
      navigate t d = some cur →
      modifyAt t d (fun cs => some (cs ++ [x])) = some t2 →
      currentHistAux t2 d =
        (currentHistAux t d).map (fun l => l ++ tupleChildren [x]) := by
  induction d with
  | zero =>
    intro t cur t2 x hnav h
    obtain ⟨cs2, hf, ht2⟩ := modifyAt_zero_shape h
    simp only [Option.some_inj] at hf
    subst ht2
    subst hf
    simp [currentHistAux, TacticTree.children, tupleChildren_append]
  | succ d ih =>
    intro t cur t2 x hnav h
    obtain ⟨sub, hg, hnav2⟩ := navigate_succ hnav
    obtain ⟨sub', sub2, hg', hm, ht2⟩ := modifyAt_succ_shape h
    rw [hg] at hg'
    simp only [Option.some_inj, Sum.inl.injEq] at hg'
    subst hg'
    have hrec := ih hnav2 hm
    subst ht2
    cases t with
    | node cs =>
      simp only [TacticTree.children] at hg
      simp only [currentHistAux, TacticTree.children, List.getLast?_concat, hg]
      rw [hrec]
      have hdec := getLast?_decomp hg
      have htc : tupleChildren (cs.dropLast ++ [Sum.inl sub2]) =
          tupleChildren cs := by
        conv_rhs => rw [← hdec]
        simp [tupleChildren_append, tupleChildren_inl]
      rw [htc]
      rcases hc : currentHistAux sub d with _ | l
      · rfl
      · simp [List.append_assoc]

theorem runStm_spec {cb : Option ProofContext} {m : Mirror} {stm : String}
    {o : RunOracle} {m2 : Mirror} (h : runStm cb m stm o = some m2) :
    ∃ sm2 lemsA h1 pc2 lemsB resetH thC h2,
      add_potential_module_stack_cmd m.sm_stack m.local_lemmas stm =
        some (sm2, lemsA) ∧
      histSetLast m.hist (fun e => { e with accepted := some false }) =
        some h1 ∧
      runStmPc stm m.proof_context o.goals_response = some pc2 ∧
      runStmLemmaBlock cb pc2 lemsA ( module_prefix_from_stack sm2) stm =
        some (lemsB, resetH) ∧
      runStmHistBlock stm cb pc2
        (if resetH then TacticHistory.empty else m.tactic_history)
        o.added_sid = some thC ∧
      histSetLast h1
        (fun e => { e with accepted := some true, sid := o.added_sid }) =
        some h2 ∧
      m2 = ⟨o.added_sid, m.cur_state, pc2, thC, lemsB, sm2, h2⟩ := by
  unfold runStm at h
  simp only [bind, Option.bind_eq_some, Option.some_inj] at h
  obtain ⟨⟨sm2, lemsA⟩, hsm, h1, hh1, pc2, hpc, ⟨lemsB, resetH⟩, hlem,
    thC, hth, h2, hh2, hm2⟩ := h
  exact ⟨sm2, lemsA, h1, pc2, lemsB, resetH, thC, h2, hsm, hh1, hpc, hlem,
    hth, hh2, hm2.symm⟩

theorem runStmPc_open {stm : String} {old resp : Option ProofContext}
    {pc2 : Option ProofContext} (ho : isGoalOpen stm = true)
    (h : runStmPc stm old resp = some pc2) :
    ∃ pc, get_enter_goal_context old = some pc ∧ pc2 = some pc := by
  unfold runStmPc at h
  rw [ho] at h
  simp only [if_true] at h
  rcases he : get_enter_goal_context old with _ | pc
  · rw [he] at h; exact Option.noConfusion h
  · rw [he] at h
    simp only [Option.map_some', Option.some_inj] at h
    exact ⟨pc, rfl, h.symm⟩

theorem runStmPc_not_open {stm : String} {old resp : Option ProofContext}
    {pc2 : Option ProofContext} (ho : isGoalOpen stm = false)
    (h : runStmPc stm old resp = some pc2) :
    pc2 = refreshProofContext old resp (isGoalClose stm || isUnshelve stm) := by
  unfold runStmPc at h
  rw [ho] at h
  simp only [Bool.false_eq_true, if_false, Option.some_inj] at h
  exact h.symm

theorem addTactic_shape {th : TacticHistory} {s : String} {i : Int}
    {th2 : TacticHistory} (h : th.addTactic s i = some th2) :
    modifyAt th.tree th.cur_subgoal_depth.toNat
      (fun cs => some (cs ++ [.inr (s, i)])) = some th2.tree ∧
    th2.cur_subgoal_depth = th.cur_subgoal_depth ∧
    th2.subgoal_tree = th.subgoal_tree := by
  unfold TacticHistory.addTactic at h
  rcases hm : modifyAt th.tree th.cur_subgoal_depth.toNat
      (fun cs => some (cs ++ [.inr (s, i)])) with _ | t2
  · rw [hm] at h; exact Option.noConfusion h
  · rw [hm] at h
    simp only [Option.map_some', Option.some_inj] at h
    subst h
    exact ⟨hm, rfl, rfl⟩

theorem openSubgoal_shape {th : TacticHistory} {bg : List Obligation}
    {th2 : TacticHistory} (h : th.openSubgoal bg = some th2) :
    modifyAt th.tree th.cur_subgoal_depth.toNat
      (fun cs => some (cs ++ [.inl (.node [])])) = some th2.tree ∧
    th2.cur_subgoal_depth = th.cur_subgoal_depth + 1 ∧
    th2.subgoal_tree = th.subgoal_tree ++ [bg] := by
  unfold TacticHistory.openSubgoal at h
  rcases hm : modifyAt th.tree th.cur_subgoal_depth.toNat
      (fun cs => some (cs ++ [.inl (.node [])])) with _ | t2
  · rw [hm] at h; exact Option.noConfusion h
  · rw [hm] at h
    simp only [Option.map_some', Option.some_inj] at h
    subst h
    exact ⟨hm, rfl, rfl⟩

theorem closeSubgoal_shape {th th2 : TacticHistory}
    (h : th.closeSubgoal = some th2) :
    0 < th.cur_subgoal_depth ∧ th.subgoal_tree ≠ [] ∧
    th2.tree = th.tree ∧
    th2.cur_subgoal_depth = th.cur_subgoal_depth - 1 ∧
    th2.subgoal_tree = th.subgoal_tree.dropLast := by
  unfold TacticHistory.closeSubgoal at h
  split at h
  · rcases hs : th.subgoal_tree with _ | ⟨x, xs⟩
    · rw [hs] at h; exact Option.noConfusion h
    · rw [hs] at h
      simp only [Option.some_inj] at h
      subst h
      exact ⟨‹_›, by simp [hs], rfl, rfl, rfl⟩
  · exact Option.noConfusion h

theorem addTactic_tree_ne_nil {th : TacticHistory} {s : String} {i : Int}
    {th2 : TacticHistory} (h : th.addTactic s i = some th2) :
    th2.tree.children ≠ [] :=
  modifyAt_append_root_ne_nil (addTactic_shape h).1

theorem openSubgoal_tree_ne_nil {th : TacticHistory} {bg : List Obligation}
    {th2 : TacticHistory} (h : th.openSubgoal bg = some th2) :
    th2.tree.children ≠ [] :=
  modifyAt_append_root_ne_nil (openSubgoal_shape h).1

theorem modifyAt_implies_navigate {d : Nat} :
    ∀ {t t2 : TacticTree} {f}, modifyAt t d f = some t2 →
      ∃ cur, navigate t d = some cur := by
  induction d with
  | zero => intro t t2 f _; exact ⟨t, rfl⟩
  | succ d ih =>
    intro t t2 f h
    obtain ⟨sub, sub2, hg, hm, -⟩ := modifyAt_succ_shape h
    obtain ⟨cur, hnav⟩ := ih hm
    refine ⟨cur, ?_⟩
    simp only [navigate, hg]
    exact hnav

theorem int_toNat_pos_succ {d : Int} (h : 0 < d) : ∃ n : Nat, d.toNat = n + 1 := by
  refine ⟨d.toNat - 1, ?_⟩
  omega

theorem runStmLemmaBlock_none {cb : Option ProofContext}
    {lems lemsB : List (String × Bool)} {mp stm : String} {resetH : Bool}
    (h : runStmLemmaBlock cb none lems mp stm = some (lemsB, resetH)) :
    resetH = true := by
  unfold runStmLemmaBlock at h
  simp only [Option.isSome_none, Bool.false_eq_true, and_false, if_false,
    Option.isNone_none, if_true] at h
  rcases hr : remove_potential_local_lemmas lems mp stm with _ | l
  · rw [hr] at h; exact Option.noConfusion h
  · rw [hr] at h
    simp only [Option.map_some', Option.some_inj, Prod.mk.injEq] at h
    exact h.2.symm

theorem runStmHistBlock_some_ne_nil {stm : String}
    {cb pc2 : Option ProofContext} {thB : TacticHistory} {sid : Int}
    {thC : TacticHistory}
    (h : runStmHistBlock stm cb pc2 thB sid = some thC)
    (hnav : (navigate thB.tree thB.cur_subgoal_depth.toNat).isSome = true)
    (hsome : pc2.isSome = true) :
    thC.tree.children ≠ [] := by
  unfold runStmHistBlock at h
  split at h
  · exact addTactic_tree_ne_nil h
  · split at h
    · simp only [bind, Option.bind_eq_some] at h
      obtain ⟨cbv, -, hop⟩ := h
      exact openSubgoal_tree_ne_nil hop
    · split at h
      · obtain ⟨hd, -, htree, -, -⟩ := closeSubgoal_shape h
        rw [htree]
        obtain ⟨n, hn⟩ := int_toNat_pos_succ hd
        rw [hn] at hnav
        rcases hn2 : navigate thB.tree (n + 1) with _ | cur
        · rw [hn2] at hnav; simp at hnav
        · exact navigate_succ_children_ne_nil hn2
      · exact addTactic_tree_ne_nil h

theorem runStmHistBlock_none_empty {stm : String} {cb : Option ProofContext}
    {sid : Int} {thC : TacticHistory}
    (h : runStmHistBlock stm cb none TacticHistory.empty sid = some thC)
    (hno : isGoalOpen stm = false) :
    thC = TacticHistory.empty := by
  unfold runStmHistBlock at h
  simp only [Option.isSome_none, Bool.false_eq_true, and_false, if_false,
    hno] at h
  split at h
  · obtain ⟨hd, -⟩ := closeSubgoal_shape h
    exact absurd hd (by simp [TacticHistory.empty])
  · exact (Option.some_inj.mp h).symm

/-- The mirror invariant the driver maintains: depth mirrors the shadow
stack, the focused-frame spine exists, and the proof context is `none`
exactly when the tactic tree has no children. -/
def MirrorInv (m : Mirror) : Prop :=
  m.tactic_history.cur_subgoal_depth =
    (m.tactic_history.subgoal_tree.length : Int) ∧
  (navigate m.tactic_history.tree
    m.tactic_history.cur_subgoal_depth.toNat).isSome = true ∧
  (m.proof_context = none ↔ m.tactic_history.tree.children = [])

theorem runStmtMirror_eq {m : Mirror} {stmt stm : String} {o : RunOracle}
    (hps : processedStmts stmt = [stm]) :
    runStmtMirror m stmt o =
      runStm m.proof_context { m with hist := m.hist ++ [⟨stmt, none, -1⟩] }
        stm o := by
  unfold runStmtMirror
  rw [hps]
  simp only [List.foldlM, bind]
  rcases h : runStm m.proof_context
      { m with hist := m.hist ++ [⟨stmt, none, -1⟩] } stm o with _ | m2
  · rfl
  · rfl

theorem run_stmt_pc_iff_hist {m : Mirror} {stmt : String} {o : RunOracle}
    {m2 : Mirror} (hInv : MirrorInv m) (h : runStmtMirror m stmt o = some m2) :
    (m2.proof_context = none ↔ m2.tactic_history.getFullHistory = []) := by
  obtain ⟨stm, hps⟩ := processedStmts_singleton stmt
  rw [runStmtMirror_eq hps] at h
  obtain ⟨sm2, lemsA, h1, pc2, lemsB, resetH, thC, h2, hsm, hh1, hpc, hlem,
    hth, hh2, hm2⟩ := runStm_spec h
  subst hm2
  obtain ⟨hdep, hnav, hiff⟩ := hInv
  show pc2 = none ↔ (TacticHistory.mk thC.tree thC.cur_subgoal_depth
    thC.subgoal_tree).getFullHistory = []
  rw [TacticHistory.getFullHistory]
  rw [fullHist_nil_iff]
  rcases pc2 with _ | pcv
  · constructor
    · intro _
      have hopen : isGoalOpen stm = false := by
        rcases ho : isGoalOpen stm
        · rfl
        · obtain ⟨pc, -, he⟩ := runStmPc_open ho hpc
          exact absurd he (by simp)
      have hreset := runStmLemmaBlock_none hlem
      rw [hreset] at hth
      simp only [if_true] at hth
      have he := runStmHistBlock_none_empty hth hopen
      rw [he]
      rfl
    · intro _
      rfl
  · have hsome : (some pcv).isSome = true := rfl
    have hnavB :
        (navigate (if resetH then TacticHistory.empty
            else m.tactic_history).tree
          (if resetH then TacticHistory.empty
            else m.tactic_history).cur_subgoal_depth.toNat).isSome = true := by
      cases resetH
      · simpa using hnav
      · simp [TacticHistory.empty, navigate]
    have hne := runStmHistBlock_some_ne_nil hth hnavB hsome
    constructor
    · intro hx
      exact absurd hx (by simp)
    · intro hx
      exact absurd hx hne

theorem cancel_last_none_imp_empty {m : Mirror} {o : CancelOracle}
    {m2 : Mirror} (h : cancel_last m o = some m2)
    (hn : m2.proof_context = none) :
    m2.tactic_history.getFullHistory = [] := by
  unfold cancel_last at h
  simp only [bind, Option.bind_eq_some] at h
  obtain ⟨m1, -, mI, -, hpost⟩ := h
  unfold cancelLastPost at hpost
  split at hpost
  · split at hpost
    · simp only [Option.some_inj] at hpost
      subst hpost
      rfl
    · exact Option.noConfusion hpost
  · simp only [Option.some_inj] at hpost
    subst hpost
    exact absurd (by simp [hn] : mI.proof_context.isNone = true) ‹_›

theorem removeLast_shape {th : TacticHistory} {alls : List Obligation}
    {th2 : TacticHistory} (h : th.removeLast alls = some th2) :
    (th2.cur_subgoal_depth = th.cur_subgoal_depth ∧
       th2.subgoal_tree = th.subgoal_tree) ∨
    (th2.cur_subgoal_depth = th.cur_subgoal_depth - 1 ∧
       th2.subgoal_tree = th.subgoal_tree.dropLast ∧ th.subgoal_tree ≠ []) ∨
    (th2.cur_subgoal_depth = th.cur_subgoal_depth + 1 ∧
       th2.subgoal_tree = th.subgoal_tree ++ [alls]) := by
  unfold TacticHistory.removeLast at h
  split at h
  · exact Option.noConfusion h
  · split at h
    · exact Option.noConfusion h
    · split at h
      · split at h
        · exact Option.noConfusion h
        · split at h
          · exact Option.noConfusion h
          · simp only [Option.some_inj] at h
            subst h
            refine Or.inr (Or.inl ⟨rfl, rfl, ?_⟩)
            simp [*]
      · rcases hm : modifyAt th.tree th.cur_subgoal_depth.toNat
            (fun cs => match cs with
              | [] => none
              | _ :: _ => some cs.dropLast) with _ | t2
        · rw [hm] at h; exact Option.noConfusion h
        · rw [hm] at h
          simp only [Option.map_some', Option.some_inj] at h
          subst h
          exact Or.inl ⟨rfl, rfl⟩
      · simp only [Option.some_inj] at h
        subst h
        exact Or.inr (Or.inr ⟨rfl, rfl⟩)

/-- The depth/shadow-stack invariant of `TacticHistory` (spec section 3). -/
def THDepthInv (th : TacticHistory) : Prop :=
  th.cur_subgoal_depth = (th.subgoal_tree.length : Int)

theorem execTHOp_preserves {th th2 : TacticHistory} {op : THOp}
    (hInv : THDepthInv th) (h : execTHOp th op = some th2) :
    THDepthInv th2 := by
  unfold THDepthInv at hInv ⊢
  cases op with
  | openSub bg =>
    obtain ⟨-, hd, hs⟩ := openSubgoal_shape h
    rw [hd, hs]
    simp only [List.length_append, List.length_singleton]
    push_cast
    omega
  | closeSub =>
    obtain ⟨hpos, hne, -, hd, hs⟩ := closeSubgoal_shape h
    rw [hd, hs]
    have hlen : th.subgoal_tree.dropLast.length = th.subgoal_tree.length - 1 :=
      List.length_dropLast _
    have hlp : 0 < th.subgoal_tree.length := List.length_pos.mpr hne
    rw [hlen]
    push_cast [hlp]
    omega
  | addTac s sid =>
    obtain ⟨-, hd, hs⟩ := addTactic_shape h
    rw [hd, hs, hInv]
  | removeL alls =>
    rcases removeLast_shape h with ⟨hd, hs⟩ | ⟨hd, hs, hne⟩ | ⟨hd, hs⟩
    · rw [hd, hs, hInv]
    · rw [hd, hs]
      have hlen : th.subgoal_tree.dropLast.length =
          th.subgoal_tree.length - 1 := List.length_dropLast _
      have hlp : 0 < th.subgoal_tree.length := List.length_pos.mpr hne
      rw [hlen]
      push_cast [hlp]
      omega
    · rw [hd, hs]
      simp only [List.length_append, List.length_singleton]
      push_cast
      omega

theorem execTHOps_preserves {ops : List THOp} :
    ∀ {th0 th : TacticHistory}, THDepthInv th0 →
      execTHOps ops th0 = some th → THDepthInv th := by
  induction ops with
  | nil =>
    intro th0 th hInv h
    simp only [execTHOps, List.foldlM, pure, Option.some_inj] at h
    subst h
    exact hInv
  | cons op rest ih =>
    intro th0 th hInv h
    simp only [execTHOps, List.foldlM, bind, Option.bind_eq_some] at h
    obtain ⟨th1, h1, h2⟩ := h
    exact ih (execTHOp_preserves hInv h1) h2

theorem addTactic_removeLast {th : TacticHistory} {s : String} {i : Int}
    {th2 : TacticHistory} (h : th.addTactic s i = some th2)
    (alls : List Obligation) :
    th2.removeLast alls = some th := by
  obtain ⟨hm, hd, hs⟩ := addTactic_shape h
  obtain ⟨cur, hnav⟩ := modifyAt_implies_navigate hm
  obtain ⟨cs2, hf, hnav2⟩ := modifyAt_navigate hnav hm
  simp only [Option.some_inj] at hf
  have hpop := modifyAt_append_pop hnav hm
  have hne := modifyAt_append_root_ne_nil hm
  unfold TacticHistory.removeLast
  rcases hc : th2.tree.children with _ | ⟨c, cs⟩
  · exact absurd hc hne
  · simp only [hd, hs, hnav2]
    subst hf
    simp only [TacticTree.children, List.getLast?_concat]
    rw [hpop]
    simp only [Option.map_some', Option.some_inj]

theorem addTactic_currentHist {th : TacticHistory} {s : String} {i : Int}
    {th2 : TacticHistory} {l : List (String × Int)}
    (h : th.addTactic s i = some th2)
    (hcur : th.getCurrentHistory = some l) :
    th2.getCurrentHistory = some (l ++ [(s, i)]) := by
  obtain ⟨hm, hd, -⟩ := addTactic_shape h
  obtain ⟨cur, hnav⟩ := modifyAt_implies_navigate hm
  have happ := currentHistAux_append hnav hm
  unfold TacticHistory.getCurrentHistory at hcur ⊢
  rw [hd, happ, hcur]
  simp [tupleChildren_inr]

theorem cancelInner_spec {m : Mirror} {o : CancelOracle} {m2 : Mirror}
    (h : cancelInner m o = some m2) :
    ∃ ns rest cur_hist th2 hist2,
      get_cancelled o.msgs = .ok (ns, rest) ∧
      m.tactic_history.getCurrentHistory = some cur_hist ∧
      cancelHistStep m.tactic_history cur_hist m.cur_state m.proof_context =
        some th2 ∧
      cancelHistTrim m.hist m.cur_state = some hist2 ∧
      m2 = { m with cur_state := ns,
                    proof_context := refreshProofContext m.proof_context
                      o.goals_response true,
                    tactic_history := th2, hist := hist2 } := by
  unfold cancelInner at h
  simp only [bind, Option.bind_eq_some, Option.some_inj] at h
  obtain ⟨⟨ns, rest⟩, hgc, cur_hist, hcur, th2, hstep, hist2, htrim, hm2⟩ := h
  refine ⟨ns, rest, cur_hist, th2, hist2, ?_, hcur, hstep, htrim, hm2.symm⟩
  rcases hg : get_cancelled o.msgs with e | pr
  · rw [hg] at hgc
    exact Option.noConfusion hgc
  · rw [hg] at hgc
    simp only [Except.toOption, Option.some_inj] at hgc
    rw [hgc]

theorem histSetLast_concat (l : List HistEntry) (e : HistEntry)
    (f : HistEntry → HistEntry) :
    histSetLast (l ++ [e]) f = some (l ++ [f e]) := by
  unfold histSetLast
  rw [List.getLast?_concat]
  simp [List.dropLast_concat]

theorem getLastD_concat {α : Type} (l : List α) (a d : α) :
    (l ++ [a]).getLastD d = a := by
  induction l with
  | nil => rfl
  | cons x xs ih =>
    cases xs with
    | nil => rfl
    | cons y ys => simpa using ih

theorem add_module_stack_id {stk : List (String × Bool)}
    {lems : List (String × Bool)} {stm : String}
    (hsm : update_sm_stack stk stm = some stk) :
    add_potential_module_stack_cmd stk lems stm = some (stk, lems) := by
  unfold add_potential_module_stack_cmd
  rw [hsm]
  have hno : ¬(0 < stk.length ∧ (stk.getLastD ("", false)).2 = true ∧
      stk.length < stk.length) := by
    rintro ⟨-, -, hlt⟩
    omega
  dsimp only
  rw [if_neg hno]

theorem runStmLemmaBlock_keep {cb pc2 : Option ProofContext}
    {lems : List (String × Bool)} {mp stm : String}
    (hcb : cb.isSome = true) (hpc : pc2.isSome = true) :
    runStmLemmaBlock cb pc2 lems mp stm = some (lems, false) := by
  unfold runStmLemmaBlock
  have h1 : ¬(cb.isNone = true ∧ pc2.isSome = true) := by
    rintro ⟨h, -⟩
    rcases cb with _ | c
    · simp at hcb
    · simp at h
  rw [if_neg h1]
  have h2 : ¬pc2.isNone = true := by
    intro h
    rcases pc2 with _ | p
    · simp at hpc
    · simp at h
  rw [if_neg h2]

theorem runStmHistBlock_addTactic {stm : String} {cb pc2 : Option ProofContext}
    {th : TacticHistory} {sid : Int}
    (hopen : isGoalOpen stm = false) (hclose : isGoalClose stm = false)
    (hsome : pc2.isSome = true) :
    runStmHistBlock stm cb pc2 th sid = th.addTactic stm sid := by
  unfold runStmHistBlock
  by_cases h1 : possibly_starting_proof stm = true ∧ pc2.isSome = true
  · rw [if_pos h1]
  · rw [if_neg h1, if_neg (by simp [hopen]), if_neg (by simp [hclose]),
        if_pos hsome]

theorem addTactic_getNextCancelled {th : TacticHistory} {s : String} {i : Int}
    {th2 : TacticHistory} (h : th.addTactic s i = some th2) :
    th2.getNextCancelled = some (.entry s i) := by
  obtain ⟨hm, hd, -⟩ := addTactic_shape h
  obtain ⟨cur, hnav⟩ := modifyAt_implies_navigate hm
  obtain ⟨cs2, hf, hnav2⟩ := modifyAt_navigate hnav hm
  simp only [Option.some_inj] at hf
  have hne := modifyAt_append_root_ne_nil hm
  unfold TacticHistory.getNextCancelled
  rcases hc : th2.tree.children with _ | ⟨c, cs⟩
  · exact absurd hc hne
  · simp only [hd, hnav2]
    subst hf
    simp only [TacticTree.children, List.getLast?_concat]

theorem cancelHistTrim_concat {l : List HistEntry} {e : HistEntry}
    {cur : Int} (hsid : e.sid = cur) :
    cancelHistTrim (l ++ [e]) cur = some l := by
  unfold cancelHistTrim
  rw [List.getLast?_concat]
  simp [hsid, List.dropLast_concat]

theorem get_cancelled_ok (d span n k : Int) (ids : List Int)
    (rest : List SMsg) (hids : ids ≠ []) :
    get_cancelled (.feedback d span :: .answerCanceled n ids ::
      .answerCompleted k :: rest) = .ok (span, rest) := by
  rcases ids with _ | ⟨a, l⟩
  · exact absurd rfl hids
  · rfl

theorem cancelLastPost_some {m : Mirror} (h : m.proof_context.isSome = true) :
    cancelLastPost m = some m := by
  unfold cancelLastPost
  rw [if_neg]
  intro hn
  rcases hp : m.proof_context with _ | p
  · rw [hp] at h; simp at h
  · rw [hp] at hn; simp at hn

theorem cancel_potential_local_lemmas_nil {lems : List (String × Bool)}
    {mp cmd : String}
    (h : lemmas_defined_by_stmt mp cmd = some []) :
    cancel_potential_local_lemmas lems mp cmd = some lems := by
  unfold cancel_potential_local_lemmas
  rw [h]
  rfl

theorem cancelLastPre_keep {m : Mirror} {s : String} {i : Int}
    (hpcs : m.proof_context.isSome = true)
    (hnext : m.tactic_history.getNextCancelled = some (.entry s i))
    (hclem : cancel_potential_local_lemmas m.local_lemmas
      ( module_prefix_from_stack m.sm_stack) s = some m.local_lemmas)
    (hne : m.tactic_history.getFullHistory ≠ []) :
    cancelLastPre m = some m := by
  unfold cancelLastPre
  rw [if_pos hpcs, if_pos hne]
  simp only [bind, hnext, Option.some_bind, HistItem.cancelledStr, hclem]

theorem cancel_last_eq {m1 : Mirror} {o : CancelOracle} {mP mI : Mirror}
    (hpre : cancelLastPre m1 = some mP)
    (hinner : cancelInner mP o = some mI)
    (hpost : cancelLastPost mI = some mI) :
    cancel_last m1 o = some mI := by
  unfold cancel_last
  simp only [bind, hpre, Option.some_bind, hinner, hpost]

/-- Claim C3 (amended): for an ordinary in-proof tactic (not a goal
open/close, no module-stack or lemma-registry effect), `run_stmt` followed
by `cancel_last` restores every mirror component: `cur_state`,
`proof_context`, tactic history, lemma registry, module/section stack and
command log.  The unrestricted claim is refuted by
`claim_C3_counterexample`: a goal-open `\x7b` is never rolled back by
`cancel_last`, because the cancelled frame carries no state id matching
`cur_state`. -/
theorem claim_C3
    (m : Mirror) (stmt stm : String) (o : RunOracle) (ids : List Int)
    (d n k : Int) (m1 : Mirror) (ctx ctx2 : ProofContext)
    (hInv : MirrorInv m)
    (hps : processedStmts stmt = [stm])
    (hpc : m.proof_context = some ctx)
    (hopen : isGoalOpen stm = false)
    (hclose : isGoalClose stm = false)
    (hsm : update_sm_stack m.sm_stack stm = some m.sm_stack)
    (hlem : lemmas_defined_by_stmt ( module_prefix_from_stack m.sm_stack) stm =
      some [])
    (hrun : runStmtMirror m stmt o = some m1)
    (hresp : o.goals_response = some ctx2)
    (hids : ids ≠ []) :
    ∃ m2, cancel_last m1
        ⟨[.feedback d m.cur_state, .answerCanceled n ids, .answerCompleted k],
          m.proof_context⟩ = some m2 ∧
      m2.cur_state = m.cur_state ∧
      m2.proof_context = m.proof_context ∧
      m2.tactic_history = m.tactic_history ∧
      m2.local_lemmas = m.local_lemmas ∧
      m2.sm_stack = m.sm_stack ∧
      m2.hist = m.hist := by
  obtain ⟨hdep, hnav, hiff⟩ := hInv
  rw [runStmtMirror_eq hps] at hrun
  obtain ⟨sm2, lemsA, h1, pc2, lemsB, resetH, thC, h2, hsm2, hh1, hpcs, hlem2,
    hth, hh2, hm1⟩ := runStm_spec hrun
  -- the module-stack step keeps stack and registry
  rw [show ({ m with hist := m.hist ++ [⟨stmt, none, -1⟩] } : Mirror).sm_stack =
      m.sm_stack from rfl,
    show ({ m with hist := m.hist ++ [⟨stmt, none, -1⟩] } : Mirror).local_lemmas =
      m.local_lemmas from rfl,
    add_module_stack_id hsm] at hsm2
  simp only [Option.some_inj, Prod.mk.injEq] at hsm2
  obtain ⟨hsm2a, hsm2b⟩ := hsm2
  subst hsm2a
  subst hsm2b
  -- the log entry bookkeeping
  rw [show ({ m with hist := m.hist ++ [⟨stmt, none, -1⟩] } : Mirror).hist =
      m.hist ++ [⟨stmt, none, -1⟩] from rfl, histSetLast_concat] at hh1
  simp only [Option.some_inj] at hh1
  subst hh1
  rw [histSetLast_concat] at hh2
  simp only [Option.some_inj] at hh2
  subst hh2
  -- the refreshed context is a real context
  have hpc2some : pc2.isSome = true := by
    have h3 := runStmPc_not_open hopen hpcs
    rw [show ({ m with hist := m.hist ++ [⟨stmt, none, -1⟩] } :
        Mirror).proof_context = m.proof_context from rfl, hpc, hresp] at h3
    rw [h3]
    cases hb : (isGoalClose stm || isUnshelve stm) <;>
      simp [refreshProofContext, hb]
  obtain ⟨pcv, hq⟩ := Option.isSome_iff_exists.mp hpc2some
  subst hq
  -- lemma block keeps the registry and the history
  rw [show ({ m with hist := m.hist ++ [⟨stmt, none, -1⟩] } :
      Mirror).proof_context = m.proof_context from rfl] at hlem2 hth
  rw [runStmLemmaBlock_keep (by simp [hpc]) hpc2some] at hlem2
  simp only [Option.some_inj, Prod.mk.injEq] at hlem2
  obtain ⟨hlemB, hreset⟩ := hlem2
  subst hlemB
  subst hreset
  simp only [Bool.false_eq_true, if_false] at hth
  rw [show ({ m with hist := m.hist ++ [⟨stmt, none, -1⟩] } :
      Mirror).tactic_history = m.tactic_history from rfl] at hth
  rw [runStmHistBlock_addTactic hopen hclose hpc2some] at hth
  -- thC is m.tactic_history plus the new entry
  subst hm1
  -- pre-phase of cancel_last
  have hfull : thC.tree.fullHist ≠ [] := by
    rw [Ne, fullHist_nil_iff]
    exact addTactic_tree_ne_nil hth
  have hnext := addTactic_getNextCancelled hth
  have hpre : cancelLastPre
      ⟨o.added_sid, m.cur_state, some pcv, thC, m.local_lemmas, m.sm_stack,
        m.hist ++ [⟨stmt, some true, o.added_sid⟩]⟩ =
      some ⟨o.added_sid, m.cur_state, some pcv, thC, m.local_lemmas, m.sm_stack,
        m.hist ++ [⟨stmt, some true, o.added_sid⟩]⟩ :=
    cancelLastPre_keep rfl hnext
      (cancel_potential_local_lemmas_nil hlem) hfull
  -- the inner cancel
  obtain ⟨l, hl⟩ : ∃ l, m.tactic_history.getCurrentHistory = some l := by
    obtain ⟨cur, hx⟩ := Option.isSome_iff_exists.mp hnav
    exact Option.isSome_iff_exists.mp (currentHistAux_isSome hx)
  have hcur := addTactic_currentHist hth hl
  have hinner : cancelInner
      ⟨o.added_sid, m.cur_state, some pcv, thC, m.local_lemmas, m.sm_stack,
        m.hist ++ [⟨stmt, some true, o.added_sid⟩]⟩
      ⟨[.feedback d m.cur_state, .answerCanceled n ids, .answerCompleted k],
        m.proof_context⟩ =
      some ⟨m.cur_state, m.cur_state, m.proof_context, m.tactic_history,
        m.local_lemmas, m.sm_stack, m.hist⟩ := by
    unfold cancelInner
    simp only [bind]
    rw [get_cancelled_ok d m.cur_state n k ids [] hids]
    simp only [Except.toOption, Option.some_bind]
    rw [hcur]
    simp only [Option.some_bind]
    unfold cancelHistStep
    rw [if_pos ⟨by simp, by simp [getLastD_concat]⟩]
    simp only [bind, Option.some_bind]
    rw [addTactic_removeLast hth pcv.fg_goals]
    simp only [Option.some_bind]
    rw [cancelHistTrim_concat (by rfl)]
    simp only [Option.some_bind, Option.some_inj]
    simp [hpc, refreshProofContext]
  refine ⟨⟨m.cur_state, m.cur_state, m.proof_context, m.tactic_history,
      m.local_lemmas, m.sm_stack, m.hist⟩, ?_, rfl, rfl, rfl, rfl, rfl, rfl⟩
  exact cancel_last_eq hpre hinner (cancelLastPost_some (by simp [hpc]))

theorem afterInterruptF_sig (f : Nat) (ir : SMsg) (r : List QEvent)
    (n : Nat) : (afterInterruptF f ir r n).sigints = n := by
  cases f with
  | zero => rfl
  | succ f =>
    unfold afterInterruptF
    repeat' split
    all_goals rfl

theorem gmtTryF_sig : ∀ (f : Nat) (m : SMsg) (r : List QEvent) (c s : Bool),
    (gmtTryF f m r c s).sigints ≤ 2 := by
  intro f
  induction f with
  | zero => intro m r c s; simp [gmtTryF]
  | succ f ih =>
    intro m r c s
    unfold gmtTryF
    repeat' split
    all_goals first
      | exact ih _ _ _ _
      | (rw [afterInterruptF_sig]; try omega)
      | simp

theorem gmtF_sig (f : Nat) (script : List QEvent) (c s : Bool) :
    (gmtF f script c s).sigints ≤ 2 := by
  cases f with
  | zero => simp [gmtF]
  | succ f =>
    unfold gmtF
    repeat' split
    all_goals first
      | exact gmtTryF_sig _ _ _ _ _
      | (rw [afterInterruptF_sig]; try omega)
      | simp

theorem wordApos_not_space {c : Char} (h : pyIsWordApos c = true) :
    pyIsSpace c = false := by
  rcases hs : pyIsSpace c with _ | _
  · rfl
  · exfalso
    unfold pyIsSpace at hs
    simp only [Bool.or_eq_true, decide_eq_true_eq] at hs
    rcases hs with ((((rfl | rfl) | rfl) | rfl) | rfl) | rfl <;>
      exact absurd h (by decide)

theorem wordApos_ne {c c2 : Char} (h : pyIsWordApos c = true)
    (h2 : pyIsWordApos c2 = false) : c ≠ c2 := by
  rintro rfl
  rw [h] at h2
  exact Bool.noConfusion h2

theorem hasSubstr_two (s : List Char) :
    ∀ i : Nat, i + 1 < s.length → charAt s i = '(' →
      charAt s (i + 1) = '*' → hasSubstr s ['(', '*'] = true := by
  induction s with
  | nil => intro i hi _ _; simp at hi
  | cons c cs ih =>
    intro i hi h1 h2
    cases i with
    | zero =>
      unfold charAt at h1 h2
      simp only [List.getD_cons_zero, List.getD_cons_succ] at h1 h2
      subst h1
      rcases cs with _ | ⟨d, ds⟩
      · simp at hi
      · simp only [List.getD_cons_zero] at h2
        subst h2
        simp [hasSubstr, startsWithL]
    | succ i =>
      have h3 : hasSubstr cs ['(', '*'] = true := by
        apply ih i (by simp at hi; omega)
        · unfold charAt at h1 ⊢
          simpa [List.getD_cons_succ] using h1
        · unfold charAt at h2 ⊢
          simpa [List.getD_cons_succ] using h2
      unfold hasSubstr
      rw [h3]
      simp

theorem no_open_comment_at {s : List Char}
    (h : hasSubstr s ['(', '*'] = false) (i : Nat) :
    ¬(charAt s i = '(' ∧ charAt s (i + 1) = '*') := by
  rintro ⟨h1, h2⟩
  by_cases hi : i + 1 < s.length
  · rw [hasSubstr_two s i hi h1 h2] at h
    exact Bool.noConfusion h
  · unfold charAt at h2
    rw [List.getD_eq_default _ _ (by omega)] at h2
    exact absurd h2 (by decide)

theorem killCommentsGo_id (s : List Char)
    (hp : ∀ i, ¬(charAt s i = '(' ∧ charAt s (i + 1) = '*')) :
    ∀ rem i q acc, i + rem = s.length →
      killCommentsGo s rem i 0 q acc = acc ++ s.drop i := by
  intro rem
  induction rem with
  | zero =>
    intro i q acc hlen
    rw [List.drop_of_length_le (by omega)]
    simp [killCommentsGo]
  | succ rem ih =>
    intro i q acc hlen
    have hi : i < s.length := by omega
    have hdrop : s.drop i = charAt s i :: s.drop (i + 1) := by
      rw [List.drop_eq_getElem_cons hi]
      unfold charAt
      rw [List.getD_eq_getElem s ' ' hi]
    have hnc : ¬(i + 1 < s.length ∧ charAt s i = '(' ∧
        charAt s (i + 1) = '*') := by
      rintro ⟨-, hb, hc⟩
      exact hp i ⟨hb, hc⟩
    cases q with
    | false =>
      unfold killCommentsGo
      simp only [Bool.false_eq_true, if_false]
      rw [if_neg hnc]
      simp only [if_pos rfl]
      have hd2 : ¬(1 ≤ i ∧ charAt s (i - 1) = '*' ∧ charAt s i = ')' ∧
          (0 : Nat) < 0) := by
        rintro ⟨-, -, -, hz⟩
        omega
      rw [if_neg hd2, ih (i + 1) _ _ (by omega), hdrop]
      simp
    | true =>
      have hstep : killCommentsGo s (rem + 1) i 0 true acc =
          killCommentsGo s rem (i + 1) 0
            (decide ¬(charAt s i = '"' ∧ prevCharAt s i ≠ '\\'))
            (acc ++ [charAt s i]) := rfl
      rw [hstep, ih (i + 1) _ _ (by omega), hdrop]
      simp

theorem kill_comments_id (s : String)
    (h : hasSubstr s.data ['(', '*'] = false) :
    kill_comments s = s := by
  unfold kill_comments
  rw [killCommentsGo_id s.data (no_open_comment_at h) s.data.length 0 false []
    (by omega)]
  simp

theorem pyStrip_id (a b : Char) (mid : List Char)
    (ha : pyIsSpace a = false) (hb : pyIsSpace b = false) :
    pyStrip (a :: (mid ++ [b])) = a :: (mid ++ [b]) := by
  unfold pyStrip
  rw [List.dropWhile_cons_of_neg (by simp [ha])]
  rw [show (a :: (mid ++ [b])).reverse = b :: (mid.reverse ++ [a]) from by
    simp]
  rw [List.dropWhile_cons_of_neg (by simp [hb])]
  simp

theorem dropWhile_space_name (N : List Char)
    (hN : ∀ c ∈ N, pyIsWordApos c = true) :
    (N ++ ['.']).dropWhile pyIsSpace = N ++ ['.'] := by
  cases N with
  | nil => decide
  | cons c cs =>
    rw [List.cons_append, List.dropWhile_cons_of_neg]
    simp [wordApos_not_space (hN c (by simp))]

theorem takeWhile_wordApos_name (N : List Char)
    (hN : ∀ c ∈ N, pyIsWordApos c = true) :
    (N ++ ['.']).takeWhile pyIsWordApos = N := by
  induction N with
  | nil => decide
  | cons c cs ih =>
    rw [List.cons_append, List.takeWhile_cons_of_pos (hN c (by simp))]
    rw [ih (fun x hx => hN x (by simp [hx]))]

theorem matchEndCmd_end (N : List Char)
    (hN : ∀ c ∈ N, pyIsWordApos c = true) :
    matchEndCmd ('E' :: 'n' :: 'd' :: ' ' :: (N ++ ['.'])) =
      some (String.mk N) := by
  unfold matchEndCmd
  rw [show kwWs "End" ('E' :: 'n' :: 'd' :: ' ' :: (N ++ ['.'])) =
      some ((N ++ ['.']).dropWhile pyIsSpace) from rfl]
  rw [dropWhile_space_name N hN]
  simp only [bind, Option.some_bind]
  rw [takeWhile_wordApos_name N hN]
  rw [show (N ++ ['.']).drop N.length = ['.'] from List.drop_left N ['.']]
  rfl

theorem hasSubstr_open_false {s : List Char} (h : ∀ c ∈ s, c ≠ '(') :
    hasSubstr s ['(', '*'] = false := by
  induction s with
  | nil => rfl
  | cons c cs ih =>
    unfold hasSubstr
    rw [ih (fun x hx => h x (List.mem_cons_of_mem _ hx))]
    simp [startsWithL, h c (List.mem_cons_self _ _)]

theorem pyStrip_end (N : List Char) :
    pyStrip ('E' :: 'n' :: 'd' :: ' ' :: (N ++ ['.'])) =
      'E' :: 'n' :: 'd' :: ' ' :: (N ++ ['.']) := by
  have h := pyStrip_id 'E' '.' ('n' :: 'd' :: ' ' :: N) (by decide) (by decide)
  simpa using h

theorem update_sm_stack_end (stk : List (String × Bool)) (N : List Char)
    (hN : ∀ c ∈ N, pyIsWordApos c = true) :
    update_sm_stack stk
        (String.mk ('E' :: 'n' :: 'd' :: ' ' :: (N ++ ['.']))) =
      match stk.getLast? with
      | some (top, _) => if top = String.mk N then some stk.dropLast else none
      | none => none := by
  have hopenf : hasSubstr ('E' :: 'n' :: 'd' :: ' ' :: (N ++ ['.']))
      ['(', '*'] = false := by
    apply hasSubstr_open_false
    intro c hc
    simp only [List.mem_cons, List.mem_append, List.not_mem_nil,
      or_false] at hc
    rcases hc with rfl | rfl | rfl | rfl | hc | rfl
    · decide
    · decide
    · decide
    · decide
    · exact wordApos_ne (hN c hc) (by decide)
    · decide
  simp only [update_sm_stack]
  rw [kill_comments_id (String.mk ('E' :: 'n' :: 'd' :: ' ' :: (N ++ ['.'])))
    hopenf]
  rw [show (String.mk ('E' :: 'n' :: 'd' :: ' ' :: (N ++ ['.']))).data =
    'E' :: 'n' :: 'd' :: ' ' :: (N ++ ['.']) from rfl]
  rw [pyStrip_end N]
  have hif : (if countSub ('E' :: 'n' :: 'd' :: ' ' :: (N ++ ['.']))
        [':', '='] > countSub ('E' :: 'n' :: 'd' :: ' ' :: (N ++ ['.']))
        "with".data then (none : Option String)
      else matchModuleStart ('E' :: 'n' :: 'd' :: ' ' :: (N ++ ['.']))) =
      none := by
    split
    · rfl
    · rfl
  rw [hif]
  rw [show matchSectionStart ('E' :: 'n' :: 'd' :: ' ' :: (N ++ ['.'])) =
    (none : Option String) from rfl]
  rw [matchEndCmd_end N hN]


/-! ### The claims -/

/-- Claim C1 (amended): after a successful `run_stmt` the equivalence
`proof_context = none ↔ tactic history empty` holds (given the mirror
invariant beforehand); after `cancel_last` only the forward direction
holds: a vanished context forces an empty history, but `cancel_last` can
leave a context alongside an empty history (`claim_C1_counterexample`). -/
theorem claim_C1 (m : Mirror) (stmt : String) (o : RunOracle) (m2 : Mirror)
    (mc : Mirror) (oc : CancelOracle) (m3 : Mirror)
    (hInv : MirrorInv m) (hrun : runStmtMirror m stmt o = some m2)
    (hcanc : cancel_last mc oc = some m3)
    (hn : m3.proof_context = none) :
    (m2.proof_context = none ↔ m2.tactic_history.getFullHistory = []) ∧
    m3.tactic_history.getFullHistory = [] :=
  ⟨run_stmt_pc_iff_hist hInv hrun, cancel_last_none_imp_empty hcanc hn⟩

/-- Claim C1 counterexample: cancelling right after `Qed.` re-enters the
proof (the prover answers the `Goals` query with a context), leaving
`proof_context` set while the fresh tactic history is empty, so the
equivalence fails after `cancel_last`. -/
theorem claim_C1_counterexample :
    (cancel_last cxQedM ⟨[.feedback 0 1, .answerCanceled 0 [1, 2],
        .answerCompleted 0], some cxPc⟩).map
      (fun m2 => decide (m2.proof_context = none ↔
        m2.tactic_history.getFullHistory = [])) = some false := by
  rfl

/-- Claim C1 witness: running `intro.` from `cxM`, and cancelling the
`Lemma` statement of `cxM` with the prover leaving the proof. -/
theorem claim_C1_witness :
    MirrorInv cxM ∧
    runStmtMirror cxM "intro." cxRunO = some cxMintro ∧
    cancel_last cxM cxCancO = some cxMcanc ∧
    cxMcanc.proof_context = none ∧
    ((cxMintro.proof_context = none ↔
        cxMintro.tactic_history.getFullHistory = []) ∧
      cxMcanc.tactic_history.getFullHistory = []) :=
  ⟨⟨rfl, rfl, by simp [cxM, TacticTree.children]⟩, rfl, rfl, rfl,
   claim_C1 cxM "intro." cxRunO cxMintro cxM cxCancO cxMcanc
     ⟨rfl, rfl, by simp [cxM, TacticTree.children]⟩ rfl rfl rfl⟩

/-- Claim C2 (amended): after a `(Cancel …)` exchange answered by one
`Feedback`, an `Answer Canceled ids` with non-empty `ids` (so `min` does
not raise) and a `Completed`, the new `cur_state` is the `Feedback`
message's span id; the minimum of the Canceled ids is computed but
discarded (`claim_C2_counterexample`). -/
theorem claim_C2 (m : Mirror) (o : CancelOracle) (m2 : Mirror)
    (d span n k : Int) (ids : List Int) (rest : List SMsg)
    (hmsgs : o.msgs = .feedback d span :: .answerCanceled n ids ::
      .answerCompleted k :: rest)
    (hids : ids ≠ [])
    (h : cancelInner m o = some m2) :
    m2.cur_state = span := by
  obtain ⟨ns, rest2, cur_hist, th2, hist2, hgc, -, -, -, hm2⟩ :=
    cancelInner_spec h
  rw [hmsgs, get_cancelled_ok d span n k ids rest hids] at hgc
  simp only [Except.ok.injEq, Prod.mk.injEq] at hgc
  subst hm2
  exact hgc.1.symm

/-- Claim C2 counterexample: `Canceled [3, 4]` has minimum 3, yet the new
`cur_state` is the `Feedback` span id 5. -/
theorem claim_C2_counterexample :
    (cancelInner cxQedM cxC2o).map (fun m2 => m2.cur_state) = some 5 ∧
    listMin [3, 4] = some 3 :=
  ⟨rfl, rfl⟩

/-- Claim C2 witness: the amended theorem on the concrete exchange. -/
theorem claim_C2_witness :
    cxC2o.msgs = .feedback 0 5 :: .answerCanceled 0 [3, 4] ::
      .answerCompleted 0 :: [] ∧
    ([3, 4] : List Int) ≠ [] ∧
    cancelInner cxQedM cxC2o = some cxC2m2 ∧
    cxC2m2.cur_state = 5 :=
  ⟨rfl, by decide, rfl,
   claim_C2 cxQedM cxC2o cxC2m2 0 5 0 0 [3, 4] [] rfl (by decide) rfl⟩

/-- Claim C3 counterexample: running the goal-open `\x7b` and cancelling
leaves the subgoal depth at 1 (the opened frame survives), so the round
trip does not restore the mirror. -/
theorem claim_C3_counterexample :
    ((runStmtMirror cxM "\x7b" ⟨2, none⟩).bind
        (fun m1 => cancel_last m1 ⟨[.feedback 0 1, .answerCanceled 0 [2],
          .answerCompleted 0], some cxPc⟩)).map
      (fun m2 => m2.tactic_history.cur_subgoal_depth) = some 1 ∧
    cxM.tactic_history.cur_subgoal_depth = 0 :=
  ⟨rfl, rfl⟩

/-- Claim C3 witness: the round trip on `intro.` from `cxM`. -/
theorem claim_C3_witness :
    MirrorInv cxM ∧
    processedStmts "intro." = ["intro."] ∧
    cxM.proof_context = some cxPc ∧
    isGoalOpen "intro." = false ∧
    isGoalClose "intro." = false ∧
    update_sm_stack cxM.sm_stack "intro." = some cxM.sm_stack ∧
    lemmas_defined_by_stmt ( module_prefix_from_stack cxM.sm_stack)
      "intro." = some [] ∧
    runStmtMirror cxM "intro." cxRunO = some cxMintro ∧
    cxRunO.goals_response = some cxPc2 ∧
    ([1] : List Int) ≠ [] ∧
    (∃ m2, cancel_last cxMintro
        ⟨[.feedback 0 cxM.cur_state, .answerCanceled 0 [1],
          .answerCompleted 0], cxM.proof_context⟩ = some m2 ∧
      m2.cur_state = cxM.cur_state ∧
      m2.proof_context = cxM.proof_context ∧
      m2.tactic_history = cxM.tactic_history ∧
      m2.local_lemmas = cxM.local_lemmas ∧
      m2.sm_stack = cxM.sm_stack ∧
      m2.hist = cxM.hist) :=
  ⟨⟨rfl, rfl, by simp [cxM, TacticTree.children]⟩, rfl, rfl, rfl, rfl, rfl, rfl, rfl, rfl,
   by decide,
   claim_C3 cxM "intro." "intro." cxRunO [1] 0 0 0 cxMintro cxPc cxPc2
     ⟨rfl, rfl, by simp [cxM, TacticTree.children]⟩ rfl rfl rfl rfl rfl rfl rfl rfl (by decide)⟩

/-- Claim C4: a goal-open statement rewrites the proof context
`(fg, bg, shelved, given_up)` to `([fg[0]], bg ++ fg[1:], shelved,
given_up)`; the shelved and given-up goals are unchanged. -/
theorem claim_C4 (m : Mirror) (stmt stm : String) (o : RunOracle)
    (m2 : Mirror) (fg0 : Obligation)
    (fgrest bg shelved given_up : List Obligation)
    (hps : processedStmts stmt = [stm])
    (hopen : isGoalOpen stm = true)
    (hpc : m.proof_context = some ⟨fg0 :: fgrest, bg, shelved, given_up⟩)
    (h : runStmtMirror m stmt o = some m2) :
    m2.proof_context = some ⟨[fg0], bg ++ fgrest, shelved, given_up⟩ := by
  rw [runStmtMirror_eq hps] at h
  obtain ⟨sm2, lemsA, h1, pc2, lemsB, resetH, thC, h2, -, -, hpcs, -, -, -,
    hm2⟩ := runStm_spec h
  subst hm2
  rw [show ({ m with hist := m.hist ++ [⟨stmt, none, -1⟩] } :
      Mirror).proof_context = m.proof_context from rfl] at hpcs
  obtain ⟨pc, he, hp2⟩ := runStmPc_open hopen hpcs
  rw [hpc] at he
  simp only [get_enter_goal_context, Option.some_inj] at he
  show pc2 = some ⟨[fg0], bg ++ fgrest, shelved, given_up⟩
  rw [hp2, ← he]

/-- Claim C4 witness: opening `\x7b` on the one-goal context of `cxM`. -/
theorem claim_C4_witness :
    processedStmts "\x7b" = ["\x7b"] ∧
    isGoalOpen "\x7b" = true ∧
    cxM.proof_context = some ⟨⟨[], ⟨"G", "G"⟩⟩ :: [], [], [], []⟩ ∧
    runStmtMirror cxM "\x7b" ⟨2, none⟩ = some cxMbrace ∧
    cxMbrace.proof_context = some ⟨[⟨[], ⟨"G", "G"⟩⟩], [] ++ [], [], []⟩ :=
  ⟨rfl, rfl, rfl, rfl,
   claim_C4 cxM "\x7b" "\x7b" ⟨2, none⟩ cxMbrace ⟨[], ⟨"G", "G"⟩⟩ [] [] []
     [] rfl rfl rfl rfl⟩

/-- Claim C5 (amended): all four parse-failure message patterns raise
`ParseError`, but only the `Stream.Error` / `Syntax error` branch resets
`cur_state` to `prev_state`; `CLexer.Error` keeps `cur_state` (draining
`Completed`), and `Invalid_argument` keeps `cur_state` and drains
nothing.  The original claim is refuted by `claim_C5_counterexample`. -/
theorem claim_C5 (msg : String) (cur prev : Int) :
    ((hasSubstr msg.data "Stream\\.Error".data ||
        hasSubstr msg.data "Syntax error".data ||
        hasSubstr msg.data "Syntax Error".data) = true →
      handle_exception_coqexn msg cur prev =
        ⟨.parseError, prev, true, false⟩) ∧
    ((hasSubstr msg.data "Stream\\.Error".data ||
        hasSubstr msg.data "Syntax error".data ||
        hasSubstr msg.data "Syntax Error".data) = false →
      hasSubstr msg.data "CLexer.Error".data = true →
      handle_exception_coqexn msg cur prev =
        ⟨.parseError, cur, true, false⟩) ∧
    ((hasSubstr msg.data "Stream\\.Error".data ||
        hasSubstr msg.data "Syntax error".data ||
        hasSubstr msg.data "Syntax Error".data) = false →
      hasSubstr msg.data "CLexer.Error".data = false →
      hasSubstr msg.data "NoSuchGoals".data = false →
      hasSubstr msg.data "Invalid_argument".data = true →
      handle_exception_coqexn msg cur prev =
        ⟨.parseError, cur, false, false⟩) := by
  refine ⟨fun h1 => ?_, fun h1 h2 => ?_, fun h1 h2 h3 h4 => ?_⟩
  · simp only [handle_exception_coqexn]
    rw [h1]
    simp
  · simp only [handle_exception_coqexn]
    rw [h1, h2]
    simp
  · simp only [handle_exception_coqexn]
    rw [h1, h2, h3, h4]
    simp

/-- Claim C5 counterexample: an `Invalid_argument` CoqExn raises
`ParseError` but keeps `cur_state = 5` (no reset to `prev_state = 3`) and
drains nothing. -/
theorem claim_C5_counterexample :
    handle_exception_coqexn "Invalid_argument" 5 3 =
      ⟨.parseError, 5, false, false⟩ := by
  decide

/-- Claim C5 witness: the `Syntax error` branch at `cur = 5`,
`prev = 3`. -/
theorem claim_C5_witness :
    (hasSubstr "Syntax error".data "Stream\\.Error".data ||
      hasSubstr "Syntax error".data "Syntax error".data ||
      hasSubstr "Syntax error".data "Syntax Error".data) = true ∧
    handle_exception_coqexn "Syntax error" 5 3 =
      ⟨.parseError, 3, true, false⟩ :=
  ⟨by decide, (claim_C5 "Syntax error" 5 3).1 (by decide)⟩

/-- Claim C6: with a non-empty command log, `cancel_failed` is a no-op
(returns the unchanged mirror, flag `false`) exactly when the last log
entry is accepted with the current state id; otherwise it performs the
`__cancel` sequence (flag `true`). -/
theorem claim_C6 (m : Mirror) (o : CancelOracle) (e : HistEntry)
    (hlast : m.hist.getLast? = some e) :
    (e.sid = m.cur_state ∧ e.accepted = some true →
      cancel_failed m o = some (m, false)) ∧
    (¬(e.sid = m.cur_state ∧ e.accepted = some true) →
      cancel_failed m o = (cancelInner m o).map (fun m2 => (m2, true))) := by
  unfold cancel_failed
  simp only [hlast]
  constructor
  · intro hcond
    rw [if_pos hcond]
  · intro hcond
    rw [if_neg hcond]

/-- Claim C6 witness: the no-op case on the post-`Qed.` mirror. -/
theorem claim_C6_witness :
    cxQedM.hist.getLast? = some ⟨"Qed.", some true, 2⟩ ∧
    ((2 : Int) = cxQedM.cur_state ∧ (some true : Option Bool) = some true) ∧
    cancel_failed cxQedM cxCancO = some (cxQedM, false) :=
  ⟨rfl, ⟨rfl, rfl⟩,
   (claim_C6 cxQedM cxCancO ⟨"Qed.", some true, 2⟩ rfl).1 ⟨rfl, rfl⟩⟩

/-- Claim C7: on a timeout `_get_message_text` sends one interrupt and
waits; a second timeout sends exactly one more interrupt; a third raises
`CoqAnomaly` having sent two; and no invocation ever sends more than two
interrupts. -/
theorem claim_C7 (f : Nat) (script r : List QEvent) (ir : SMsg)
    (c s : Bool) :
    (gmtF (f + 1) (.timeout :: .msg ir :: r) c s = afterInterruptF f ir r 1 ∧
      (afterInterruptF f ir r 1).sigints = 1) ∧
    (gmtF (f + 1) (.timeout :: .timeout :: .msg ir :: r) c s =
        afterInterruptF f ir r 2 ∧
      (afterInterruptF f ir r 2).sigints = 2) ∧
    gmtF (f + 1) (.timeout :: .timeout :: .timeout :: r) c s =
      ⟨.error .coqAnomalyTimeout, r, 2⟩ ∧
    (gmtF f script c s).sigints ≤ 2 :=
  ⟨⟨rfl, afterInterruptF_sig f ir r 1⟩,
   ⟨rfl, afterInterruptF_sig f ir r 2⟩, rfl, gmtF_sig f script c s⟩

/-- Claim C8: `update_sm_stack stk "End N."` pops the top entry when its
name is `N` and errors otherwise, including on an empty stack; the
function acts on a copy of the stack, so this describes its value. -/
theorem claim_C8 (stk : List (String × Bool)) (N : String)
    (hN : ∀ c ∈ N.data, pyIsWordApos c = true) :
    update_sm_stack stk ("End " ++ N ++ ".") =
      match stk.getLast? with
      | some (top, _) => if top = N then some stk.dropLast else none
      | none => none := by
  rcases N with ⟨l⟩
  rw [show ("End " ++ String.mk l ++ ".") =
      String.mk ('E' :: 'n' :: 'd' :: ' ' :: (l ++ ['.'])) from rfl]
  exact update_sm_stack_end stk l hN

/-- Claim C8 witness: `End M.` pops the matching module `M`, on the
one-entry stack. -/
theorem claim_C8_witness :
    (∀ c ∈ "M".data, pyIsWordApos c = true) ∧
    update_sm_stack [("M", false)] ("End " ++ "M" ++ ".") = some [] := by
  refine ⟨by decide, ?_⟩
  rw [claim_C8 [("M", false)] "M" (by decide)]
  rfl

/-- Claim C9 (amended): `kill_comments` is the identity, hence idempotent,
on every input without the comment opener `(*`; the unrestricted claim is
refuted by `claim_C9_counterexample`. -/
theorem claim_C9 (x : String) (h : hasSubstr x.data ['(', '*'] = false) :
    kill_comments (kill_comments x) = kill_comments x := by
  rw [kill_comments_id x h, kill_comments_id x h]

/-- Claim C9 counterexample: one pass over `"((*x*)*"` yields `"(*"`, a
second pass yields `""`, so `kill_comments` is not idempotent. -/
theorem claim_C9_counterexample :
    kill_comments (kill_comments "((*x*)*") ≠ kill_comments "((*x*)*" := by
  decide

/-- Claim C9 witness: the amended theorem applied to `"intro."`. -/
theorem claim_C9_witness :
    hasSubstr "intro.".data ['(', '*'] = false ∧
    kill_comments (kill_comments "intro.") = kill_comments "intro." :=
  ⟨by decide, claim_C9 "intro." (by decide)⟩

/-- Claim C10: along every sequence of history operations that starts from
the fresh history and respects the operations' preconditions, the current
subgoal depth equals the shadow-stack length and is non-negative. -/
theorem claim_C10 (ops : List THOp) (th : TacticHistory)
    (h : execTHOps ops TacticHistory.empty = some th) :
    th.cur_subgoal_depth = (th.subgoal_tree.length : Int) ∧
    0 ≤ th.cur_subgoal_depth := by
  have hinv : THDepthInv th :=
    execTHOps_preserves (show THDepthInv TacticHistory.empty from rfl) h
  exact ⟨hinv, by rw [hinv]; exact_mod_cast Nat.zero_le _⟩

/-- Claim C10 witness: opening one subgoal frame from the fresh
history. -/
theorem claim_C10_witness :
    execTHOps [THOp.openSub []] TacticHistory.empty =
      some ⟨.node [.inl (.node [])], 1, [[]]⟩ ∧
    ((⟨.node [.inl (.node [])], 1, [[]]⟩ :
        TacticHistory).cur_subgoal_depth =
      ((⟨.node [.inl (.node [])], 1, [[]]⟩ :
        TacticHistory).subgoal_tree.length : Int) ∧
      0 ≤ (⟨.node [.inl (.node [])], 1, [[]]⟩ :
        TacticHistory).cur_subgoal_depth) :=
  ⟨rfl, claim_C10 [THOp.openSub []] _ rfl⟩

end CoqSerapy
